import Mathlib

set_option maxRecDepth 2000

/-!
Verification of the amortization engine of `src/main.py` (`calculate_loan`,
lines 53-118), shallowly embedded over exact rationals.  Python floats are
modelled as `ℚ`; `round(x, 2)` (round half to even) is modelled by
`roundHalfEven`.  The `while` loop (lines 77-106) is modelled as a
fuel-indexed recursion where the fuel is exactly the remaining number of
months permitted by the `month < safety_cap` test, so fuel exhaustion
coincides with that test failing.  The schedule is accumulated newest-first
and reversed on exit, which is observationally the same as Python's
`schedule.append`.
-/

/-- The two error kinds raised by `calculate_loan` (both via
`HTTPException(status_code=400)` in the source: lines 60 and 84). -/
inductive LoanError where
  | InvalidInput
  | NonAmortizingPayment
deriving DecidableEq

/-- `LoanInput` (lines 18-22).  Pydantic's range constraints are transport
concerns; the engine re-checks validity itself (line 59). -/
structure LoanInput where
  principal : ℚ
  annual_rate : ℚ
  term_months : ℤ
  extra_payment : ℚ
deriving DecidableEq

/-- `ScheduleItem` (lines 25-30). -/
structure ScheduleItem where
  month : ℤ
  payment : ℚ
  interest : ℚ
  principal : ℚ
  balance : ℚ
deriving DecidableEq

/-- `LoanResult` (lines 33-39).  The schedule is always present. -/
structure LoanResult where
  monthly_payment : ℚ
  total_payment : ℚ
  total_interest : ℚ
  payoff_months : ℕ
  apr : ℚ
  schedule : List ScheduleItem
deriving DecidableEq

/-- Nearest integer, ties to even: the rounding used by Python's `round`. -/
def roundHalfEven (q : ℚ) : ℤ :=
  if q - ⌊q⌋ < 1/2 then ⌊q⌋
  else if 1/2 < q - ⌊q⌋ then ⌊q⌋ + 1
  else if Even ⌊q⌋ then ⌊q⌋ else ⌊q⌋ + 1

/-- `round(x, 2)` of the source. -/
def round2 (q : ℚ) : ℚ := (roundHalfEven (100 * q) : ℚ) / 100

/-- `round(x, 3)` of the source (line 115). -/
def round3 (q : ℚ) : ℚ := (roundHalfEven (1000 * q) : ℚ) / 1000

/-- `r = float(payload.annual_rate) / 100.0 / 12.0` (line 55). -/
def monthlyRate (inp : LoanInput) : ℚ := inp.annual_rate / 100 / 12

/-- `base_payment` (lines 63-66). -/
def basePayment (inp : LoanInput) : ℚ :=
  if monthlyRate inp = 0 then inp.principal / (inp.term_months : ℚ)
  else
    inp.principal * (monthlyRate inp * (1 + monthlyRate inp) ^ inp.term_months.toNat) /
      ((1 + monthlyRate inp) ^ inp.term_months.toNat - 1)

/-- `payment = base_payment + extra` (line 68). -/
def scheduledPayment (inp : LoanInput) : ℚ := basePayment inp + inp.extra_payment

/-- `safety_cap = n + 600` (line 76). -/
def safetyCap (inp : LoanInput) : ℤ := inp.term_months + 600

/-- One iteration of the amortization loop body (lines 78-103): returns
the recorded `ScheduleItem`, the new balance, and the (unrounded) interest
component, or fails with `NonAmortizingPayment` (lines 83-84). -/
def loopBody (r payment balance : ℚ) (month : ℤ) :
    Except LoanError (ScheduleItem × ℚ × ℚ) :=
  let interest_component := balance * r
  let principal_component := payment - interest_component
  if principal_component ≤ 0 ∧ 0 < r then .error .NonAmortizingPayment
  else if balance < principal_component then
    -- clamp: `principal_component = balance` (lines 86-88)
    .ok (⟨month, round2 (interest_component + balance), round2 interest_component,
          round2 balance, round2 (max (balance - balance) 0)⟩,
         balance - balance, interest_component)
  else
    .ok (⟨month, round2 payment, round2 interest_component,
          round2 principal_component, round2 (max (balance - principal_component) 0)⟩,
         balance - principal_component, interest_component)

/-- The `while` loop (lines 77-106).  `fuel` is the number of months the
`month < safety_cap` test still permits (so the test fails exactly when
`fuel = 0`); `month` is the current month counter; the schedule is
accumulated newest-first. -/
def amortLoop (r payment : ℚ) :
    ℕ → ℤ → ℚ → ℚ → List ScheduleItem → Except LoanError (List ScheduleItem × ℚ)
  | 0, _, _, total_interest, sched => .ok (sched, total_interest)
  | fuel + 1, month, balance, total_interest, sched =>
    if balance ≤ 1/200 then .ok (sched, total_interest)
    else
      match loopBody r payment balance (month + 1) with
      | .error e => .error e
      | .ok (item, newBalance, ic) =>
        if 3600 < month + 1 then .ok (item :: sched, total_interest + ic)
        else amortLoop r payment fuel (month + 1) newBalance (total_interest + ic)
              (item :: sched)

/-- `calculate_loan` (lines 53-118), the operation `computeSchedule`. -/
def calculate_loan (inp : LoanInput) : Except LoanError LoanResult :=
  if inp.principal ≤ 0 ∨ inp.term_months ≤ 0 ∨ inp.annual_rate < 0 then
    .error .InvalidInput
  else
    match amortLoop (monthlyRate inp) (scheduledPayment inp) (safetyCap inp).toNat
        0 inp.principal 0 [] with
    | .error e => .error e
    | .ok (revSched, total_interest) =>
      let schedule := revSched.reverse
      .ok { monthly_payment := round2 (scheduledPayment inp)
          , total_payment := round2 ((schedule.map ScheduleItem.payment).sum)
          , total_interest := round2 total_interest
          , payoff_months := schedule.length
          , apr := round3 inp.annual_rate
          , schedule := schedule }

/-!  ## Properties of the rounding function  -/

theorem roundHalfEven_eq_of_abs_lt (q : ℚ) (k : ℤ) (h : |q - (k : ℚ)| < 1/2) :
    roundHalfEven q = k := by
  rcases abs_lt.mp h with ⟨h1, h2⟩
  unfold roundHalfEven
  by_cases hk : (k : ℚ) ≤ q
  · have hf : ⌊q⌋ = k := Int.floor_eq_iff.mpr ⟨hk, by push_cast; linarith⟩
    rw [hf, if_pos (by linarith)]
  · push_neg at hk
    have hf : ⌊q⌋ = k - 1 := Int.floor_eq_iff.mpr ⟨by push_cast; linarith, by push_cast; linarith⟩
    rw [hf, if_neg (by push_cast; linarith), if_pos (by push_cast; linarith)]
    omega

theorem roundHalfEven_eq_of_abs_eq_even (q : ℚ) (k : ℤ) (h : |q - (k : ℚ)| = 1/2)
    (hk : Even k) : roundHalfEven q = k := by
  unfold roundHalfEven
  rcases abs_eq (by norm_num : (0:ℚ) ≤ 1/2) |>.mp h with h' | h'
  · have hf : ⌊q⌋ = k := Int.floor_eq_iff.mpr ⟨by linarith, by push_cast; linarith⟩
    rw [hf, if_neg (by linarith), if_neg (by linarith), if_pos hk]
  · have hf : ⌊q⌋ = k - 1 := Int.floor_eq_iff.mpr ⟨by push_cast; linarith, by push_cast; linarith⟩
    have hodd : ¬ Even (k - 1) := by
      rcases hk with ⟨m, hm⟩
      intro ⟨m', hm'⟩
      omega
    rw [hf, if_neg (by push_cast; linarith), if_neg (by push_cast; linarith), if_neg hodd]
    omega

theorem floor_le_roundHalfEven (q : ℚ) : ⌊q⌋ ≤ roundHalfEven q := by
  unfold roundHalfEven
  split_ifs <;> omega

theorem roundHalfEven_le_floor_add_one (q : ℚ) : roundHalfEven q ≤ ⌊q⌋ + 1 := by
  unfold roundHalfEven
  split_ifs <;> omega

theorem abs_roundHalfEven_sub_le (q : ℚ) : |(roundHalfEven q : ℚ) - q| ≤ 1/2 := by
  have h0 : (⌊q⌋ : ℚ) ≤ q := Int.floor_le q
  have h1 : q < (⌊q⌋ : ℚ) + 1 := Int.lt_floor_add_one q
  unfold roundHalfEven
  split_ifs with c1 c2 c3 <;> rw [abs_le] <;> constructor <;> push_cast <;> linarith

theorem roundHalfEven_mono {q q' : ℚ} (h : q ≤ q') :
    roundHalfEven q ≤ roundHalfEven q' := by
  by_contra hlt
  push_neg at hlt
  have hq := abs_le.mp (abs_roundHalfEven_sub_le q)
  have hq' := abs_le.mp (abs_roundHalfEven_sub_le q')
  have hle : (roundHalfEven q' : ℚ) + 1 ≤ (roundHalfEven q : ℚ) := by exact_mod_cast hlt
  have : q = q' := by linarith [hq.1, hq.2, hq'.1, hq'.2]
  subst this
  exact absurd hlt (lt_irrefl _)

theorem roundHalfEven_intCast (k : ℤ) : roundHalfEven (k : ℚ) = k :=
  roundHalfEven_eq_of_abs_lt _ _ (by simp)

/-!  ## Properties of `round2`  -/

theorem round2_eq_of_abs_lt (q : ℚ) (k : ℤ) (h : |100 * q - (k : ℚ)| < 1/2) :
    round2 q = (k : ℚ) / 100 := by
  unfold round2
  rw [roundHalfEven_eq_of_abs_lt _ _ h]

theorem round2_eq_of_abs_eq_even (q : ℚ) (k : ℤ) (h : |100 * q - (k : ℚ)| = 1/2)
    (hk : Even k) : round2 q = (k : ℚ) / 100 := by
  unfold round2
  rw [roundHalfEven_eq_of_abs_eq_even _ _ h hk]

theorem abs_round2_sub_le (q : ℚ) : |round2 q - q| ≤ 1/200 := by
  have h := abs_roundHalfEven_sub_le (100 * q)
  unfold round2
  rw [abs_le] at h ⊢
  constructor <;> [linarith [h.1]; linarith [h.2]]

theorem round2_mono {q q' : ℚ} (h : q ≤ q') : round2 q ≤ round2 q' := by
  unfold round2
  have := @roundHalfEven_mono (100 * q) (100 * q') (by linarith)
  have : (roundHalfEven (100 * q) : ℚ) ≤ (roundHalfEven (100 * q') : ℚ) := by exact_mod_cast this
  linarith

theorem round2_round2 (q : ℚ) : round2 (round2 q) = round2 q := by
  unfold round2
  rw [show (100 : ℚ) * ((roundHalfEven (100 * q) : ℚ) / 100) = (roundHalfEven (100 * q) : ℚ) by
    ring]
  rw [roundHalfEven_intCast]

theorem round2_zero : round2 0 = 0 := by
  unfold round2
  rw [show (100 : ℚ) * 0 = ((0 : ℤ) : ℚ) by norm_num, roundHalfEven_intCast]
  norm_num

theorem round2_eq_zero {q : ℚ} (h0 : 0 ≤ q) (h1 : q ≤ 1/200) : round2 q = 0 := by
  rcases lt_or_eq_of_le h1 with h | h
  · rw [round2_eq_of_abs_lt q 0 (by rw [abs_lt]; constructor <;> push_cast <;> linarith)]
    norm_num
  · rw [round2_eq_of_abs_eq_even q 0 (by rw [h]; norm_num) ⟨0, by norm_num⟩]
    norm_num

theorem round2_nonneg {q : ℚ} (h : 0 ≤ q) : 0 ≤ round2 q := by
  unfold round2
  have h2 : (0 : ℤ) ≤ ⌊100 * q⌋ := Int.floor_nonneg.mpr (by linarith)
  have h3 := floor_le_roundHalfEven (100 * q)
  have : (0 : ℚ) ≤ (roundHalfEven (100 * q) : ℚ) := by exact_mod_cast le_trans h2 h3
  positivity

theorem one_le_roundHalfEven {q : ℚ} (h : 1/2 < q) : 1 ≤ roundHalfEven q := by
  have h3 := floor_le_roundHalfEven q
  by_cases h1 : 1 ≤ ⌊q⌋
  · omega
  · have hf : ⌊q⌋ = 0 := le_antisymm (by omega) (Int.floor_nonneg.mpr (by linarith))
    unfold roundHalfEven at h3 ⊢
    rw [hf] at h3 ⊢
    rw [if_neg (by push_cast; linarith), if_pos (by push_cast; linarith)]
    omega

theorem round2_ge_of_gt {q : ℚ} (h : 1/200 < q) : 1/100 ≤ round2 q := by
  unfold round2
  have := @one_le_roundHalfEven (100 * q) (by linarith)
  have : (1 : ℚ) ≤ (roundHalfEven (100 * q) : ℚ) := by exact_mod_cast this
  linarith

/-- Core arithmetic fact behind the per-entry component-sum invariant: rounding
two summands separately agrees with rounding the sum to within one cent. -/
theorem abs_round2_add_round2_sub_round2 (a b : ℚ) :
    |round2 a + round2 b - round2 (a + b)| ≤ 1/100 := by
  have ha := abs_le.mp (abs_roundHalfEven_sub_le (100 * a))
  have hb := abs_le.mp (abs_roundHalfEven_sub_le (100 * b))
  have hc := abs_le.mp (abs_roundHalfEven_sub_le (100 * (a + b)))
  set A := roundHalfEven (100 * a) with hA
  set B := roundHalfEven (100 * b) with hB
  set C := roundHalfEven (100 * (a + b)) with hC
  have hsum : |((A + B - C : ℤ) : ℚ)| ≤ 3/2 := by
    push_cast
    rw [abs_le]
    constructor <;> linarith [ha.1, ha.2, hb.1, hb.2, hc.1, hc.2]
  have hint : |A + B - C| ≤ 1 := by
    by_contra hgt
    push_neg at hgt
    have : (2 : ℚ) ≤ |((A + B - C : ℤ) : ℚ)| := by
      rw [← Int.cast_abs]
      exact_mod_cast hgt
    linarith
  unfold round2
  rw [← hA, ← hB, ← hC]
  have : |((A + B - C : ℤ) : ℚ)| ≤ 1 := by
    rw [← Int.cast_abs]
    exact_mod_cast hint
  rw [show (A : ℚ) / 100 + (B : ℚ) / 100 - (C : ℚ) / 100 = ((A + B - C : ℤ) : ℚ) / 100 by
    push_cast; ring]
  rw [abs_div, abs_of_pos (by norm_num : (0:ℚ) < 100)]
  linarith

/-!  ## Unfolding lemmas for `loopBody` and `amortLoop`  -/

theorem loopBody_guard (r p b : ℚ) (m : ℤ) (h : p - b * r ≤ 0 ∧ 0 < r) :
    loopBody r p b m = .error .NonAmortizingPayment := by
  simp only [loopBody]
  rw [if_pos h]

theorem loopBody_clamp (r p b : ℚ) (m : ℤ) (h1 : ¬ (p - b * r ≤ 0 ∧ 0 < r))
    (h2 : b < p - b * r) :
    loopBody r p b m = .ok (⟨m, round2 (b * r + b), round2 (b * r),
      round2 b, round2 (max (b - b) 0)⟩, b - b, b * r) := by
  simp only [loopBody]
  rw [if_neg h1, if_pos h2]

theorem loopBody_noclamp (r p b : ℚ) (m : ℤ) (h1 : ¬ (p - b * r ≤ 0 ∧ 0 < r))
    (h2 : ¬ b < p - b * r) :
    loopBody r p b m = .ok (⟨m, round2 p, round2 (b * r),
      round2 (p - b * r), round2 (max (b - (p - b * r)) 0)⟩, b - (p - b * r), b * r) := by
  simp only [loopBody]
  rw [if_neg h1, if_neg h2]

theorem amortLoop_zero (r p : ℚ) (month : ℤ) (b ti : ℚ) (sched : List ScheduleItem) :
    amortLoop r p 0 month b ti sched = .ok (sched, ti) := rfl

theorem amortLoop_stop (r p : ℚ) (fuel : ℕ) (month : ℤ) (b ti : ℚ)
    (sched : List ScheduleItem) (h : b ≤ 1/200) :
    amortLoop r p (fuel + 1) month b ti sched = .ok (sched, ti) := by
  simp only [amortLoop]
  rw [if_pos h]

theorem amortLoop_error (r p : ℚ) (fuel : ℕ) (month : ℤ) (b ti : ℚ)
    (sched : List ScheduleItem) (e : LoanError) (h1 : ¬ b ≤ 1/200)
    (h2 : loopBody r p b (month + 1) = .error e) :
    amortLoop r p (fuel + 1) month b ti sched = .error e := by
  simp only [amortLoop]
  rw [if_neg h1, h2]

theorem amortLoop_break (r p : ℚ) (fuel : ℕ) (month : ℤ) (b ti : ℚ)
    (sched : List ScheduleItem) (item : ScheduleItem) (nb ic : ℚ) (h1 : ¬ b ≤ 1/200)
    (h2 : loopBody r p b (month + 1) = .ok (item, nb, ic)) (h3 : 3600 < month + 1) :
    amortLoop r p (fuel + 1) month b ti sched = .ok (item :: sched, ti + ic) := by
  simp only [amortLoop]
  rw [if_neg h1, h2]
  simp only []
  rw [if_pos h3]

theorem amortLoop_step (r p : ℚ) (fuel : ℕ) (month : ℤ) (b ti : ℚ)
    (sched : List ScheduleItem) (item : ScheduleItem) (nb ic : ℚ) (h1 : ¬ b ≤ 1/200)
    (h2 : loopBody r p b (month + 1) = .ok (item, nb, ic)) (h3 : ¬ 3600 < month + 1) :
    amortLoop r p (fuel + 1) month b ti sched =
      amortLoop r p fuel (month + 1) nb (ti + ic) (item :: sched) := by
  simp only [amortLoop]
  rw [if_neg h1, h2]
  simp only []
  rw [if_neg h3]

/-- The schedule and interest parameters of `amortLoop` are pure accumulators. -/
theorem amortLoop_acc (r p : ℚ) : ∀ (fuel : ℕ) (month : ℤ) (b ti : ℚ)
    (sched : List ScheduleItem),
    amortLoop r p fuel month b ti sched =
      (amortLoop r p fuel month b 0 []).map (fun x => (x.1 ++ sched, ti + x.2))
  | 0, month, b, ti, sched => by
    simp [amortLoop_zero, Except.map]
  | fuel + 1, month, b, ti, sched => by
    by_cases hb : b ≤ 1/200
    · simp [amortLoop_stop _ _ _ _ _ _ _ hb, Except.map]
    · rcases hlb : loopBody r p b (month + 1) with e | ⟨item, nb, ic⟩
      · rw [amortLoop_error _ _ _ _ _ _ _ _ hb hlb, amortLoop_error _ _ _ _ _ _ _ _ hb hlb]
        rfl
      · by_cases hm : 3600 < month + 1
        · rw [amortLoop_break _ _ _ _ _ _ _ _ _ _ hb hlb hm,
            amortLoop_break _ _ _ _ _ _ _ _ _ _ hb hlb hm]
          simp [Except.map]
        · rw [amortLoop_step _ _ _ _ _ _ _ _ _ _ hb hlb hm,
            amortLoop_step _ _ _ _ _ _ _ _ _ _ hb hlb hm,
            amortLoop_acc r p fuel (month + 1) nb (ti + ic) (item :: sched),
            amortLoop_acc r p fuel (month + 1) nb (0 + ic) (item :: [])]
          rcases amortLoop r p fuel (month + 1) nb 0 [] with e | ⟨s, t⟩
          · rfl
          · simp [Except.map]
            ring

/-- `loopBody` fails exactly when the non-amortization guard fires. -/
theorem loopBody_error_iff (r p b : ℚ) (m : ℤ) (e : LoanError) :
    loopBody r p b m = .error e ↔ e = .NonAmortizingPayment ∧ p - b * r ≤ 0 ∧ 0 < r := by
  constructor
  · intro h
    by_cases hg : p - b * r ≤ 0 ∧ 0 < r
    · rw [loopBody_guard _ _ _ _ hg] at h
      exact ⟨(Except.error.injEq _ _).mp h.symm, hg⟩
    · by_cases hc : b < p - b * r
      · rw [loopBody_clamp _ _ _ _ hg hc] at h
        cases h
      · rw [loopBody_noclamp _ _ _ _ hg hc] at h
        cases h
  · intro ⟨he, hg⟩
    rw [he, loopBody_guard _ _ _ _ hg]

/-- Everything recorded by one successful loop iteration, in terms of the
balance `b` before and `nb` after the iteration. -/
theorem loopBody_ok_facts (r p b : ℚ) (m : ℤ) (item : ScheduleItem) (nb ic : ℚ)
    (hp : 0 < p) (hr : 0 ≤ r) (hb : 0 < b)
    (h : loopBody r p b m = .ok (item, nb, ic)) :
    ic = b * r ∧ 0 ≤ nb ∧ nb < b ∧ item.month = m ∧
    item.interest = round2 ic ∧ item.principal = round2 (b - nb) ∧
    item.payment = round2 (ic + (b - nb)) ∧ item.balance = round2 nb := by
  by_cases hg : p - b * r ≤ 0 ∧ 0 < r
  · rw [loopBody_guard _ _ _ _ hg] at h
    cases h
  have hpc : 0 < p - b * r := by
    rcases lt_or_eq_of_le hr with hr' | hr'
    · by_contra hpc
      push_neg at hpc
      exact hg ⟨hpc, hr'⟩
    · rw [← hr']
      simpa using hp
  by_cases hc : b < p - b * r
  · rw [loopBody_clamp _ _ _ _ hg hc] at h
    injection h with h
    injection h with hitem h
    injection h with hnb hic
    subst hitem
    subst hnb
    subst hic
    refine ⟨rfl, by linarith, by linarith, rfl, rfl, by rw [show b - (b - b) = b by ring],
      by rw [show b * r + (b - (b - b)) = b * r + b by ring], ?_⟩
    rw [show max (b - b) 0 = b - b by simp]
  · rw [loopBody_noclamp _ _ _ _ hg hc] at h
    injection h with h
    injection h with hitem h
    injection h with hnb hic
    subst hitem
    subst hnb
    subst hic
    push_neg at hc
    refine ⟨rfl, by linarith, by linarith, rfl, rfl,
      by rw [show b - (b - (p - b * r)) = p - b * r by ring],
      by rw [show b * r + (b - (b - (p - b * r))) = p by ring], ?_⟩
    rw [max_eq_left (by linarith)]

/-- The loop adds at most `fuel` schedule entries: `payoff_months` can never
exceed `safety_cap`. -/
theorem amortLoop_length_le_fuel (r p : ℚ) : ∀ (fuel : ℕ) (month : ℤ) (b ti : ℚ)
    (sched : List ScheduleItem) (s : List ScheduleItem) (t : ℚ),
    amortLoop r p fuel month b ti sched = .ok (s, t) →
    s.length ≤ sched.length + fuel
  | 0, month, b, ti, sched, s, t => by
    intro h
    rw [amortLoop_zero] at h
    injection h with h
    injection h with hs ht
    rw [← hs]
    simp
  | fuel + 1, month, b, ti, sched, s, t => by
    intro h
    by_cases hb : b ≤ 1/200
    · rw [amortLoop_stop _ _ _ _ _ _ _ hb] at h
      injection h with h
      injection h with hs ht
      rw [← hs]
      omega
    · rcases hlb : loopBody r p b (month + 1) with e | ⟨item, nb, ic⟩
      · rw [amortLoop_error _ _ _ _ _ _ _ _ hb hlb] at h
        cases h
      · by_cases hm : 3600 < month + 1
        · rw [amortLoop_break _ _ _ _ _ _ _ _ _ _ hb hlb hm] at h
          injection h with h
          injection h with hs ht
          rw [← hs]
          simp only [List.length_cons]
          omega
        · rw [amortLoop_step _ _ _ _ _ _ _ _ _ _ hb hlb hm] at h
          have := amortLoop_length_le_fuel r p fuel (month + 1) nb (ti + ic)
            (item :: sched) s t h
          simp at this
          omega

/-- The absolute fail-safe: the loop can add at most `3601 - month` more
entries, whatever the fuel. -/
theorem amortLoop_length_le_hardstop (r p : ℚ) : ∀ (fuel : ℕ) (month : ℤ) (b ti : ℚ)
    (sched : List ScheduleItem) (s : List ScheduleItem) (t : ℚ),
    month ≤ 3600 →
    amortLoop r p fuel month b ti sched = .ok (s, t) →
    (s.length : ℤ) ≤ sched.length + (3601 - month)
  | 0, month, b, ti, sched, s, t => by
    intro hm h
    rw [amortLoop_zero] at h
    injection h with h
    injection h with hs ht
    rw [← hs]
    omega
  | fuel + 1, month, b, ti, sched, s, t => by
    intro hm h
    by_cases hb : b ≤ 1/200
    · rw [amortLoop_stop _ _ _ _ _ _ _ hb] at h
      injection h with h
      injection h with hs ht
      rw [← hs]
      omega
    · rcases hlb : loopBody r p b (month + 1) with e | ⟨item, nb, ic⟩
      · rw [amortLoop_error _ _ _ _ _ _ _ _ hb hlb] at h
        cases h
      · by_cases hmm : 3600 < month + 1
        · rw [amortLoop_break _ _ _ _ _ _ _ _ _ _ hb hlb hmm] at h
          injection h with h
          injection h with hs ht
          rw [← hs]
          simp
          omega
        · rw [amortLoop_step _ _ _ _ _ _ _ _ _ _ hb hlb hmm] at h
          push_neg at hmm
          have := amortLoop_length_le_hardstop r p fuel (month + 1) nb (ti + ic)
            (item :: sched) s t (by omega) h
          simp at this
          omega

theorem round2_le_add (q : ℚ) : round2 q ≤ q + 1/200 := by
  have := abs_le.mp (abs_round2_sub_le q)
  linarith [this.2]

theorem le_round2_add (q : ℚ) : q ≤ round2 q + 1/200 := by
  have := abs_le.mp (abs_round2_sub_le q)
  linarith [this.1]

/-- An empty loop result means the loop never entered its body, so the
starting balance was already at or below the epsilon (or the fuel was 0). -/
theorem amortLoop_ne_nil_imp (r p : ℚ) (fuel : ℕ) (month : ℤ) (b : ℚ)
    (s : List ScheduleItem) (t : ℚ)
    (h : amortLoop r p fuel month b 0 [] = .ok (s, t)) (hne : s ≠ []) : 1/200 < b := by
  by_contra hb
  push_neg at hb
  cases fuel with
  | zero =>
    rw [amortLoop_zero] at h
    injection h with h
    injection h with hs ht
    exact hne hs.symm
  | succ fuel =>
    rw [amortLoop_stop _ _ _ _ _ _ _ hb] at h
    injection h with h
    injection h with hs ht
    exact hne hs.symm

/-- Conversely, with positive fuel and a balance above the epsilon, a
successful loop records at least one entry. -/
theorem amortLoop_cons_of (r p : ℚ) (fuel : ℕ) (month : ℤ) (b : ℚ)
    (s : List ScheduleItem) (t : ℚ) (hb : 1/200 < b)
    (h : amortLoop r p (fuel + 1) month b 0 [] = .ok (s, t)) : s ≠ [] := by
  have hb' : ¬ b ≤ 1/200 := by linarith
  rcases hlb : loopBody r p b (month + 1) with e | ⟨item, nb, ic⟩
  · rw [amortLoop_error _ _ _ _ _ _ _ _ hb' hlb] at h
    cases h
  · by_cases hm : 3600 < month + 1
    · rw [amortLoop_break _ _ _ _ _ _ _ _ _ _ hb' hlb hm] at h
      injection h with h
      injection h with hs ht
      rw [← hs]
      simp
    · rw [amortLoop_step _ _ _ _ _ _ _ _ _ _ hb' hlb hm,
        amortLoop_acc r p fuel (month + 1) nb (0 + ic) [item]] at h
      rcases hcore : amortLoop r p fuel (month + 1) nb 0 [] with e' | ⟨s', t'⟩ <;>
        rw [hcore] at h
      · cases h
      · injection h with h
        injection h with hs ht
        rw [← hs]
        simp

/-- An entry as recorded by the loop: each monetary field is the
2-decimal rounding of an exact quantity, with interest + principal
summing exactly to the actual payment before rounding. -/
def entryGood (e : ScheduleItem) : Prop :=
  ∃ a c nb, e.interest = round2 a ∧ e.principal = round2 c ∧
    e.payment = round2 (a + c) ∧ e.balance = round2 nb

/-- Invariants of a full loop run (from a fresh accumulator): every entry is
well-formed, accumulated interest is non-negative, the recorded payments sum
to at most balance-consumed + interest + half a cent per entry, every entry
other than the newest has a recorded balance of at least one cent, and if the
loop stopped with fuel remaining and without tripping the absolute fail-safe
then the newest entry's recorded balance is 0. -/
theorem amortLoop_run_invariants (r p : ℚ) (hp : 0 < p) (hr : 0 ≤ r) :
    ∀ (fuel : ℕ) (month : ℤ) (b : ℚ), 0 ≤ b →
    ∀ (s : List ScheduleItem) (t : ℚ),
    amortLoop r p fuel month b 0 [] = .ok (s, t) →
    (∀ e ∈ s, entryGood e) ∧ 0 ≤ t ∧
    (s.map ScheduleItem.payment).sum ≤ b + t + (s.length : ℚ) * (1/200) ∧
    (∀ e ∈ s.tail, 1/100 ≤ e.balance) ∧
    (∀ e, s.head? = some e → s.length < fuel → month + (s.length : ℤ) ≤ 3600 →
      e.balance = 0)
  | 0, month, b, hb0, s, t => by
    intro h
    rw [amortLoop_zero] at h
    injection h with h
    injection h with hs ht
    subst hs
    subst ht
    refine ⟨by simp, le_refl _, by simpa using hb0, by simp, by simp⟩
  | fuel + 1, month, b, hb0, s, t => by
    intro h
    by_cases hb : b ≤ 1/200
    · rw [amortLoop_stop _ _ _ _ _ _ _ hb] at h
      injection h with h
      injection h with hs ht
      subst hs
      subst ht
      refine ⟨by simp, le_refl _, by simpa using hb0, by simp, by simp⟩
    · push_neg at hb
      have hbpos : 0 < b := lt_trans (by norm_num) hb
      rcases hlb : loopBody r p b (month + 1) with e | ⟨item, nb, ic⟩
      · rw [amortLoop_error _ _ _ _ _ _ _ _ (by linarith) hlb] at h
        cases h
      · obtain ⟨hic, hnb0, hnbb, hmn, hint, hpr, hpay, hbal⟩ :=
          loopBody_ok_facts r p b (month + 1) item nb ic hp hr hbpos hlb
        have hic0 : 0 ≤ ic := by
          rw [hic]
          exact mul_nonneg (le_of_lt hbpos) hr
        have hitem_good : entryGood item := ⟨ic, b - nb, nb, hint, hpr, hpay, hbal⟩
        by_cases hm : 3600 < month + 1
        · rw [amortLoop_break _ _ _ _ _ _ _ _ _ _ (by linarith) hlb hm] at h
          injection h with h
          injection h with hs ht
          subst hs
          subst ht
          refine ⟨?_, by linarith, ?_, by simp, ?_⟩
          · intro e he
            simp at he
            rw [he]
            exact hitem_good
          · simp only [List.map_cons, List.map_nil, List.sum_cons, List.sum_nil,
              List.length_cons, List.length_nil]
            have := round2_le_add (ic + (b - nb))
            rw [← hpay] at this
            push_cast
            linarith
          · intro e he hlen hmon
            simp only [List.length_cons, List.length_nil] at hmon
            push_cast at hmon
            omega
        · rw [amortLoop_step _ _ _ _ _ _ _ _ _ _ (by linarith) hlb hm,
            amortLoop_acc r p fuel (month + 1) nb (0 + ic) [item]] at h
          rcases hcore : amortLoop r p fuel (month + 1) nb 0 [] with e' | ⟨s', t'⟩ <;>
            rw [hcore] at h
          · cases h
          · injection h with h
            injection h with hs ht
            subst hs
            subst ht
            obtain ⟨IH1, IH2, IH3, IH4, IH5⟩ :=
              amortLoop_run_invariants r p hp hr fuel (month + 1) nb hnb0 s' t' hcore
            have hpay_le : item.payment ≤ ic + (b - nb) + 1/200 := by
              rw [hpay]
              exact round2_le_add _
            refine ⟨?_, by linarith, ?_, ?_, ?_⟩
            · intro e he
              rcases List.mem_append.mp he with he' | he'
              · exact IH1 e he'
              · simp at he'
                rw [he']
                exact hitem_good
            · rw [List.map_append, List.sum_append]
              simp only [List.map_cons, List.map_nil, List.sum_cons, List.sum_nil,
                List.length_append, List.length_cons, List.length_nil]
              push_cast
              linarith
            · by_cases hs' : s' = []
              · subst hs'
                intro e he
                simp at he
              · rw [List.tail_append_singleton_of_ne_nil hs']
                intro e he
                rcases List.mem_append.mp he with he' | he'
                · exact IH4 e he'
                · simp at he'
                  rw [he', hbal]
                  exact round2_ge_of_gt (amortLoop_ne_nil_imp r p fuel (month + 1) nb s' t'
                    hcore hs')
            · intro e he hlen hmon
              by_cases hs' : s' = []
              · subst hs'
                simp only [List.nil_append, List.head?_cons, Option.some.injEq] at he
                subst he
                simp only [List.nil_append, List.length_cons, List.length_nil] at hlen hmon
                have hnble : nb ≤ 1/200 := by
                  by_contra hnb'
                  push_neg at hnb'
                  obtain ⟨fuel', rfl⟩ : ∃ f, fuel = f + 1 := ⟨fuel - 1, by omega⟩
                  exact amortLoop_cons_of r p fuel' (month + 1) nb [] t' hnb' hcore rfl
                rw [hbal]
                exact round2_eq_zero hnb0 hnble
              · rw [List.head?_append_of_ne_nil s' hs'] at he
                apply IH5 e he
                · simp only [List.length_append, List.length_cons, List.length_nil] at hlen
                  omega
                · simp only [List.length_append, List.length_cons, List.length_nil] at hmon
                  push_cast at hmon ⊢
                  omega

/-- The balance update applied by one successful loop iteration: the
principal component `payment - balance * r`, clamped to the balance. -/
def stepBal (r p b : ℚ) : ℚ := if b < p - b * r then 0 else b - (p - b * r)

/-- The balance before month `k + 1` of the loop (month 0 = start). -/
def balSeq (r p b : ℚ) : ℕ → ℚ
  | 0 => b
  | k + 1 => stepBal r p (balSeq r p b k)

theorem balSeq_shift (r p b : ℚ) : ∀ k : ℕ,
    balSeq r p (stepBal r p b) k = balSeq r p b (k + 1)
  | 0 => rfl
  | k + 1 => by
    show stepBal r p (balSeq r p (stepBal r p b) k) = stepBal r p (balSeq r p b (k + 1))
    rw [balSeq_shift r p b k]

theorem loopBody_ok_stepBal (r p b : ℚ) (m : ℤ) (item : ScheduleItem) (nb ic : ℚ)
    (h : loopBody r p b m = .ok (item, nb, ic)) : nb = stepBal r p b := by
  by_cases hg : p - b * r ≤ 0 ∧ 0 < r
  · rw [loopBody_guard _ _ _ _ hg] at h
    cases h
  by_cases hc : b < p - b * r
  · rw [loopBody_clamp _ _ _ _ hg hc] at h
    injection h with h
    injection h with hitem h
    injection h with hnb hic
    rw [← hnb, stepBal, if_pos hc]
    ring
  · rw [loopBody_noclamp _ _ _ _ hg hc] at h
    injection h with h
    injection h with hitem h
    injection h with hnb hic
    rw [← hnb, stepBal, if_neg hc]

theorem loopBody_ok_pc_pos (r p b : ℚ) (m : ℤ) (item : ScheduleItem) (nb ic : ℚ)
    (hp : 0 < p) (hr : 0 ≤ r)
    (h : loopBody r p b m = .ok (item, nb, ic)) : 0 < p - b * r := by
  by_cases hg : p - b * r ≤ 0 ∧ 0 < r
  · rw [loopBody_guard _ _ _ _ hg] at h
    cases h
  · rcases lt_or_eq_of_le hr with hr' | hr'
    · by_contra hpc
      push_neg at hpc
      exact hg ⟨hpc, hr'⟩
    · rw [← hr']
      simpa using hp

/-- The loop fails (necessarily with `NonAmortizingPayment`) exactly when the
monthly rate is positive and, on the first month it is reached, the payment
no longer exceeds the interest on the running balance — all earlier months
having a balance above the epsilon, a positive principal component, and
room left both in the fuel and before the absolute fail-safe. -/
theorem amortLoop_error_iff (r p : ℚ) : ∀ (fuel : ℕ) (month : ℤ) (b ti : ℚ)
    (sched : List ScheduleItem), month ≤ 3600 →
    (amortLoop r p fuel month b ti sched = .error .NonAmortizingPayment ↔
      0 < r ∧ ∃ k : ℕ, k < fuel ∧ month + (k : ℤ) ≤ 3600 ∧
        (∀ j ≤ k, 1/200 < balSeq r p b j) ∧
        p - balSeq r p b k * r ≤ 0 ∧
        (∀ j < k, 0 < p - balSeq r p b j * r))
  | 0, month, b, ti, sched => by
    intro hm
    rw [amortLoop_zero]
    simp
  | fuel + 1, month, b, ti, sched => by
    intro hm
    by_cases hb : b ≤ 1/200
    · rw [amortLoop_stop _ _ _ _ _ _ _ hb]
      constructor
      · intro h
        cases h
      · intro ⟨hr', k, hk, hmk, hbal, hfail, hmin⟩
        have := hbal 0 (Nat.zero_le k)
        simp only [balSeq] at this
        linarith
    · push_neg at hb
      by_cases hg : p - b * r ≤ 0 ∧ 0 < r
      · rw [amortLoop_error _ _ _ _ _ _ _ _ (by linarith) (loopBody_guard _ _ _ _ hg)]
        constructor
        · intro _
          refine ⟨hg.2, 0, Nat.succ_pos _, by simpa using hm, ?_, by simpa using hg.1,
            by omega⟩
          intro j hj
          interval_cases j
          simpa using hb
        · intro _
          rfl
      · rcases hlb : loopBody r p b (month + 1) with e | ⟨item, nb, ic⟩
        · exact absurd ((loopBody_error_iff r p b (month + 1) e).mp hlb).2 hg
        · have hnb := loopBody_ok_stepBal r p b (month + 1) item nb ic hlb
          have hshift : ∀ j, balSeq r p nb j = balSeq r p b (j + 1) := by
            intro j
            rw [hnb, balSeq_shift]
          by_cases hmm : 3600 < month + 1
          · rw [amortLoop_break _ _ _ _ _ _ _ _ _ _ (by linarith) hlb hmm]
            constructor
            · intro h
              cases h
            · intro ⟨hr', k, hk, hmk, hbal, hfail, hmin⟩
              cases k with
              | zero =>
                simp only [balSeq] at hfail
                exact absurd ⟨hfail, hr'⟩ hg
              | succ k' =>
                push_cast at hmk
                omega
          · rw [amortLoop_step _ _ _ _ _ _ _ _ _ _ (by linarith) hlb hmm,
              amortLoop_error_iff r p fuel (month + 1) nb (ti + ic) (item :: sched)
                (by omega)]
            constructor
            · intro ⟨hr', k, hk, hmk, hbal, hfail, hmin⟩
              refine ⟨hr', k + 1, by omega, by push_cast; push_cast at hmk; omega, ?_, ?_, ?_⟩
              · intro j hj
                cases j with
                | zero => simpa using hb
                | succ j' => rw [← hshift j']; exact hbal j' (by omega)
              · rw [← hshift k]
                exact hfail
              · intro j hj
                cases j with
                | zero =>
                  simp only [balSeq]
                  by_contra hpc
                  push_neg at hpc
                  exact hg ⟨hpc, hr'⟩
                | succ j' =>
                  rw [← hshift j']
                  exact hmin j' (by omega)
            · intro ⟨hr', k, hk, hmk, hbal, hfail, hmin⟩
              cases k with
              | zero =>
                simp only [balSeq] at hfail
                exact absurd ⟨hfail, hr'⟩ hg
              | succ k' =>
                refine ⟨hr', k', by omega, by push_cast; push_cast at hmk; omega, ?_, ?_, ?_⟩
                · intro j hj
                  rw [hshift j]
                  exact hbal (j + 1) (by omega)
                · rw [hshift k']
                  exact hfail
                · intro j hj
                  rw [hshift j]
                  exact hmin (j + 1) (by omega)

theorem stepBal_le_stepBal {r b1 b2 p1 p2 : ℚ} (hr : 0 ≤ r) (hb2 : 0 ≤ b2)
    (hb : b2 ≤ b1) (hp : p1 ≤ p2) : stepBal r p2 b2 ≤ stepBal r p1 b1 := by
  have hmul : b2 * r ≤ b1 * r := mul_le_mul_of_nonneg_right hb hr
  unfold stepBal
  split_ifs with h2 h1 h1
  · exact le_refl 0
  · push_neg at h1
    linarith
  · push_neg at h2
    linarith
  · push_neg at h1 h2
    linarith

/-- Raising the constant payment (and lowering the balance) can only make the
loop finish sooner and accrue less interest. -/
theorem amortLoop_le_of_le (r p1 p2 : ℚ) (hr : 0 ≤ r) (hp1 : 0 < p1) (hp : p1 ≤ p2) :
    ∀ (fuel : ℕ) (month : ℤ) (b1 b2 : ℚ), 0 ≤ b2 → b2 ≤ b1 →
    ∀ (s1 : List ScheduleItem) (t1 : ℚ),
    amortLoop r p1 fuel month b1 0 [] = .ok (s1, t1) →
    ∃ s2 t2, amortLoop r p2 fuel month b2 0 [] = .ok (s2, t2) ∧
      s2.length ≤ s1.length ∧ 0 ≤ t2 ∧ t2 ≤ t1
  | 0, month, b1, b2, hb2, hb, s1, t1 => by
    intro h1
    rw [amortLoop_zero] at h1
    injection h1 with h1
    injection h1 with hs ht
    exact ⟨[], 0, amortLoop_zero _ _ _ _ _ _, by rw [← hs], le_refl _, by rw [← ht]⟩
  | fuel + 1, month, b1, b2, hb2, hb, s1, t1 => by
    intro h1
    have ht1 : 0 ≤ t1 :=
      (amortLoop_run_invariants r p1 hp1 hr (fuel + 1) month b1 (le_trans hb2 hb)
        s1 t1 h1).2.1
    by_cases hble : b2 ≤ 1/200
    · exact ⟨[], 0, amortLoop_stop _ _ _ _ _ _ _ hble, by simp, le_refl _, ht1⟩
    · push_neg at hble
      have hb1gt : ¬ b1 ≤ 1/200 := by linarith
      rcases hlb1 : loopBody r p1 b1 (month + 1) with e | ⟨item1, nb1, ic1⟩
      · rw [amortLoop_error _ _ _ _ _ _ _ _ hb1gt hlb1] at h1
        cases h1
      · have hpc1 := loopBody_ok_pc_pos r p1 b1 (month + 1) item1 nb1 ic1 hp1 hr hlb1
        have hpc2 : 0 < p2 - b2 * r := by
          have : b2 * r ≤ b1 * r := mul_le_mul_of_nonneg_right hb hr
          linarith
        rcases hlb2 : loopBody r p2 b2 (month + 1) with e | ⟨item2, nb2, ic2⟩
        · exact absurd ((loopBody_error_iff r p2 b2 (month + 1) e).mp hlb2).2.1 (by linarith)
        · obtain ⟨hic1, hnb1z, _, _, _, _, _, _⟩ :=
            loopBody_ok_facts r p1 b1 (month + 1) item1 nb1 ic1 hp1 hr (by linarith) hlb1
          obtain ⟨hic2, hnb2z, _, _, _, _, _, _⟩ :=
            loopBody_ok_facts r p2 b2 (month + 1) item2 nb2 ic2 (by linarith) hr
              (by linarith) hlb2
          have hicle : ic2 ≤ ic1 := by
            rw [hic1, hic2]
            exact mul_le_mul_of_nonneg_right hb hr
          have hic2z : 0 ≤ ic2 := by
            rw [hic2]
            exact mul_nonneg (by linarith) hr
          have hnble : nb2 ≤ nb1 := by
            rw [loopBody_ok_stepBal r p1 b1 (month + 1) item1 nb1 ic1 hlb1,
              loopBody_ok_stepBal r p2 b2 (month + 1) item2 nb2 ic2 hlb2]
            exact stepBal_le_stepBal hr hb2 hb hp
          by_cases hmm : 3600 < month + 1
          · rw [amortLoop_break _ _ _ _ _ _ _ _ _ _ hb1gt hlb1 hmm] at h1
            injection h1 with h1
            injection h1 with hs ht
            refine ⟨[item2], 0 + ic2,
              amortLoop_break _ _ _ _ _ _ _ _ _ _ (by linarith) hlb2 hmm, ?_, ?_, ?_⟩
            · rw [← hs]
              simp
            · linarith
            · rw [← ht]
              linarith
          · rw [amortLoop_step _ _ _ _ _ _ _ _ _ _ hb1gt hlb1 hmm,
              amortLoop_acc r p1 fuel (month + 1) nb1 (0 + ic1) [item1]] at h1
            rcases hcore1 : amortLoop r p1 fuel (month + 1) nb1 0 [] with e' | ⟨s1', t1'⟩ <;>
              rw [hcore1] at h1
            · cases h1
            · injection h1 with h1
              injection h1 with hs ht
              obtain ⟨s2', t2', hcore2, hlen', ht2z', htle'⟩ :=
                amortLoop_le_of_le r p1 p2 hr hp1 hp fuel (month + 1) nb1 nb2 hnb2z
                  hnble s1' t1' hcore1
              refine ⟨s2' ++ [item2], 0 + ic2 + t2', ?_, ?_, by linarith, ?_⟩
              · rw [amortLoop_step _ _ _ _ _ _ _ _ _ _ (by linarith) hlb2 hmm,
                  amortLoop_acc r p2 fuel (month + 1) nb2 (0 + ic2) [item2], hcore2]
                rfl
              · rw [← hs]
                simp only [List.length_append, List.length_cons, List.length_nil]
                omega
              · rw [← ht]
                linarith

theorem round2_intCast (k : ℤ) : round2 (k : ℚ) = k := by
  unfold round2
  rw [show (100 : ℚ) * (k : ℚ) = ((100 * k : ℤ) : ℚ) by push_cast; ring,
    roundHalfEven_intCast]
  push_cast
  ring

/-- With a zero rate and a balance that is an exact multiple `m` of the
payment, the loop runs exactly `m` months (provided it has fuel for them and
the absolute fail-safe leaves room) and accrues no interest. -/
theorem amortLoop_r0_depletes (p : ℚ) (hp : 1/200 < p) :
    ∀ (m fuel : ℕ) (month : ℤ), m ≤ fuel → 0 ≤ month → month + (m : ℤ) ≤ 3601 →
    ∃ s, amortLoop 0 p fuel month ((m : ℚ) * p) 0 [] = .ok (s, 0) ∧ s.length = m ∧
      (∀ e ∈ s, e.interest = 0)
  | 0, fuel, month => by
    intro hmf hm0 hm1
    have hb : ((0 : ℕ) : ℚ) * p ≤ 1/200 := by
      push_cast
      linarith
    cases fuel with
    | zero => exact ⟨[], by rw [amortLoop_zero], rfl, by simp⟩
    | succ fuel => exact ⟨[], by rw [amortLoop_stop _ _ _ _ _ _ _ hb], rfl, by simp⟩
  | m + 1, fuel, month => by
    intro hmf hm0 hm1
    obtain ⟨fuel', rfl⟩ : ∃ f, fuel = f + 1 := ⟨fuel - 1, by omega⟩
    have hb : (1:ℚ)/200 < ((m + 1 : ℕ) : ℚ) * p := by
      have h1 : (1 : ℚ) ≤ ((m + 1 : ℕ) : ℚ) := by
        push_cast
        linarith [(Nat.cast_nonneg m : (0:ℚ) ≤ (m : ℚ))]
      nlinarith
    have hg : ¬ (p - ((m + 1 : ℕ) : ℚ) * p * 0 ≤ 0 ∧ (0:ℚ) < 0) := by
      intro ⟨_, h⟩
      exact absurd h (lt_irrefl 0)
    have hc : ¬ ((m + 1 : ℕ) : ℚ) * p < p - ((m + 1 : ℕ) : ℚ) * p * 0 := by
      push_neg
      have h1 : (1 : ℚ) ≤ ((m + 1 : ℕ) : ℚ) := by
        push_cast
        linarith [(Nat.cast_nonneg m : (0:ℚ) ≤ (m : ℚ))]
      nlinarith
    have hlb := loopBody_noclamp 0 p (((m + 1 : ℕ) : ℚ) * p) (month + 1) hg hc
    have hnb : ((m + 1 : ℕ) : ℚ) * p - (p - ((m + 1 : ℕ) : ℚ) * p * 0) = (m : ℚ) * p := by
      push_cast
      ring
    have hint0 : round2 (((m + 1 : ℕ) : ℚ) * p * 0) = 0 := by
      rw [mul_zero, round2_zero]
    by_cases hmm : 3600 < month + 1
    · have hm0' : m = 0 := by omega
      subst hm0'
      refine ⟨[⟨month + 1, round2 p, round2 (((0 + 1 : ℕ) : ℚ) * p * 0),
        round2 (p - ((0 + 1 : ℕ) : ℚ) * p * 0),
        round2 (max (((0 + 1 : ℕ) : ℚ) * p - (p - ((0 + 1 : ℕ) : ℚ) * p * 0)) 0)⟩], ?_, rfl, ?_⟩
      · rw [amortLoop_break _ _ _ _ _ _ _ _ _ _ (by linarith) hlb hmm]
        rw [show (0 : ℚ) + ((0 + 1 : ℕ) : ℚ) * p * 0 = 0 by ring]
      · intro e he
        simp only [List.mem_singleton] at he
        rw [he]
        exact hint0
    · obtain ⟨s', hs', hlen', hint'⟩ :=
        amortLoop_r0_depletes p hp m fuel' (month + 1) (by omega) (by omega)
          (by push_cast; push_cast at hm1; omega)
      refine ⟨s' ++ [⟨month + 1, round2 p, round2 (((m + 1 : ℕ) : ℚ) * p * 0),
        round2 (p - ((m + 1 : ℕ) : ℚ) * p * 0),
        round2 (max (((m + 1 : ℕ) : ℚ) * p - (p - ((m + 1 : ℕ) : ℚ) * p * 0)) 0)⟩], ?_, ?_, ?_⟩
      · rw [amortLoop_step _ _ _ _ _ _ _ _ _ _ (by linarith) hlb hmm,
          amortLoop_acc _ _ fuel' (month + 1) _ _ _, hnb, hs']
        simp only [Except.map]
        rw [show (0 : ℚ) + ((m + 1 : ℕ) : ℚ) * p * 0 + 0 = 0 by ring]
      · simp only [List.length_append, List.length_cons, List.length_nil]
        omega
      · intro e he
        rcases List.mem_append.mp he with he' | he'
        · exact hint' e he'
        · simp only [List.mem_singleton] at he'
          rw [he']
          exact hint0

/-- With a zero rate and strictly more balance-months than the absolute
fail-safe leaves room for, the loop runs right up to the fail-safe (month
3601 when started at month 0), stops silently, and the newest entry records
the still-positive remaining balance. -/
theorem amortLoop_r0_hardstop (p : ℚ) (hp : 1/200 < p) :
    ∀ (fuel : ℕ) (month : ℤ) (m : ℕ), 0 ≤ month → month ≤ 3600 →
    3601 - month < (m : ℤ) → 3601 - month ≤ (fuel : ℤ) →
    ∃ s e, amortLoop 0 p fuel month ((m : ℚ) * p) 0 [] = .ok (s, 0) ∧
      (s.length : ℤ) = 3601 - month ∧ (∀ x ∈ s, x.interest = 0) ∧
      s.head? = some e ∧ e.balance = round2 (((m : ℚ) - ((3601 - month : ℤ) : ℚ)) * p)
  | 0, month, m => by
    intro h0 h1 h2 h3
    omega
  | fuel + 1, month, m => by
    intro h0 h1 h2 h3
    obtain ⟨m', rfl⟩ : ∃ m'', m = m'' + 1 := ⟨m - 1, by omega⟩
    have hb : (1:ℚ)/200 < ((m' + 1 : ℕ) : ℚ) * p := by
      have hc1 : (1 : ℚ) ≤ ((m' + 1 : ℕ) : ℚ) := by
        push_cast
        linarith [(Nat.cast_nonneg m' : (0:ℚ) ≤ (m' : ℚ))]
      nlinarith
    have hg : ¬ (p - ((m' + 1 : ℕ) : ℚ) * p * 0 ≤ 0 ∧ (0:ℚ) < 0) := by
      intro ⟨_, h⟩
      exact absurd h (lt_irrefl 0)
    have hc : ¬ ((m' + 1 : ℕ) : ℚ) * p < p - ((m' + 1 : ℕ) : ℚ) * p * 0 := by
      push_neg
      have hc1 : (1 : ℚ) ≤ ((m' + 1 : ℕ) : ℚ) := by
        push_cast
        linarith [(Nat.cast_nonneg m' : (0:ℚ) ≤ (m' : ℚ))]
      nlinarith
    have hlb := loopBody_noclamp 0 p (((m' + 1 : ℕ) : ℚ) * p) (month + 1) hg hc
    have hnb : ((m' + 1 : ℕ) : ℚ) * p - (p - ((m' + 1 : ℕ) : ℚ) * p * 0) = (m' : ℚ) * p := by
      push_cast
      ring
    have hint0 : round2 (((m' + 1 : ℕ) : ℚ) * p * 0) = 0 := by
      rw [mul_zero, round2_zero]
    have hm'pos : (0 : ℚ) ≤ (m' : ℚ) * p :=
      mul_nonneg (Nat.cast_nonneg m') (by linarith)
    by_cases hmm : 3600 < month + 1
    · have hmonth : month = 3600 := by omega
      refine ⟨[⟨month + 1, round2 p, round2 (((m' + 1 : ℕ) : ℚ) * p * 0),
        round2 (p - ((m' + 1 : ℕ) : ℚ) * p * 0),
        round2 (max (((m' + 1 : ℕ) : ℚ) * p - (p - ((m' + 1 : ℕ) : ℚ) * p * 0)) 0)⟩],
        ⟨month + 1, round2 p, round2 (((m' + 1 : ℕ) : ℚ) * p * 0),
        round2 (p - ((m' + 1 : ℕ) : ℚ) * p * 0),
        round2 (max (((m' + 1 : ℕ) : ℚ) * p - (p - ((m' + 1 : ℕ) : ℚ) * p * 0)) 0)⟩,
        ?_, ?_, ?_, rfl, ?_⟩
      · rw [amortLoop_break _ _ _ _ _ _ _ _ _ _ (by linarith) hlb hmm]
        rw [show (0 : ℚ) + ((m' + 1 : ℕ) : ℚ) * p * 0 = 0 by ring]
      · simp only [List.length_cons, List.length_nil]
        omega
      · intro x hx
        simp only [List.mem_singleton] at hx
        rw [hx]
        exact hint0
      · show round2 (max (((m' + 1 : ℕ) : ℚ) * p - (p - ((m' + 1 : ℕ) : ℚ) * p * 0)) 0) = _
        rw [hnb, max_eq_left hm'pos, hmonth]
        congr 1
        push_cast
        ring
    · obtain ⟨s', e', hs', hlen', hint', hhead', hbal'⟩ :=
        amortLoop_r0_hardstop p hp fuel (month + 1) m' (by omega) (by omega)
          (by push_cast; push_cast at h2; omega) (by push_cast; push_cast at h3; omega)
      have hs'ne : s' ≠ [] := by
        intro hnil
        rw [hnil] at hhead'
        cases hhead'
      refine ⟨s' ++ [⟨month + 1, round2 p, round2 (((m' + 1 : ℕ) : ℚ) * p * 0),
        round2 (p - ((m' + 1 : ℕ) : ℚ) * p * 0),
        round2 (max (((m' + 1 : ℕ) : ℚ) * p - (p - ((m' + 1 : ℕ) : ℚ) * p * 0)) 0)⟩],
        e', ?_, ?_, ?_, ?_, ?_⟩
      · rw [amortLoop_step _ _ _ _ _ _ _ _ _ _ (by linarith) hlb hmm,
          amortLoop_acc _ _ fuel (month + 1) _ _ _, hnb, hs']
        simp only [Except.map]
        rw [show (0 : ℚ) + ((m' + 1 : ℕ) : ℚ) * p * 0 + 0 = 0 by ring]
      · simp only [List.length_append, List.length_cons, List.length_nil]
        push_cast
        push_cast at hlen'
        omega
      · intro x hx
        rcases List.mem_append.mp hx with hx' | hx'
        · exact hint' x hx'
        · simp only [List.mem_singleton] at hx'
          rw [hx']
          exact hint0
      · rw [List.head?_append_of_ne_nil s' hs'ne]
        exact hhead'
      · rw [hbal']
        congr 1
        push_cast
        ring

/-!  ## Unfolding `calculate_loan`  -/

theorem calculate_loan_invalid (inp : LoanInput)
    (h : inp.principal ≤ 0 ∨ inp.term_months ≤ 0 ∨ inp.annual_rate < 0) :
    calculate_loan inp = .error .InvalidInput := by
  unfold calculate_loan
  rw [if_pos h]

theorem calculate_loan_of_loop_ok (inp : LoanInput)
    (hvalid : ¬ (inp.principal ≤ 0 ∨ inp.term_months ≤ 0 ∨ inp.annual_rate < 0))
    (revSched : List ScheduleItem) (ti : ℚ)
    (h : amortLoop (monthlyRate inp) (scheduledPayment inp) (safetyCap inp).toNat
      0 inp.principal 0 [] = .ok (revSched, ti)) :
    calculate_loan inp = .ok
      { monthly_payment := round2 (scheduledPayment inp)
      , total_payment := round2 ((revSched.reverse.map ScheduleItem.payment).sum)
      , total_interest := round2 ti
      , payoff_months := revSched.reverse.length
      , apr := round3 inp.annual_rate
      , schedule := revSched.reverse } := by
  unfold calculate_loan
  rw [if_neg hvalid, h]

theorem calculate_loan_of_loop_error (inp : LoanInput)
    (hvalid : ¬ (inp.principal ≤ 0 ∨ inp.term_months ≤ 0 ∨ inp.annual_rate < 0))
    (e : LoanError)
    (h : amortLoop (monthlyRate inp) (scheduledPayment inp) (safetyCap inp).toNat
      0 inp.principal 0 [] = .error e) :
    calculate_loan inp = .error e := by
  unfold calculate_loan
  rw [if_neg hvalid, h]

/-- Inversion: a successful computation determines every result field from a
successful loop run. -/
theorem calculate_loan_ok_inv (inp : LoanInput) (res : LoanResult)
    (h : calculate_loan inp = .ok res) :
    ∃ revSched ti,
      amortLoop (monthlyRate inp) (scheduledPayment inp) (safetyCap inp).toNat
        0 inp.principal 0 [] = .ok (revSched, ti) ∧
      res.schedule = revSched.reverse ∧ res.payoff_months = revSched.length ∧
      res.total_interest = round2 ti ∧ res.monthly_payment = round2 (scheduledPayment inp) ∧
      res.total_payment = round2 ((revSched.reverse.map ScheduleItem.payment).sum) ∧
      0 < inp.principal ∧ 0 < inp.term_months ∧ 0 ≤ inp.annual_rate := by
  by_cases hvalid : inp.principal ≤ 0 ∨ inp.term_months ≤ 0 ∨ inp.annual_rate < 0
  · rw [calculate_loan_invalid inp hvalid] at h
    cases h
  · push_neg at hvalid
    rcases hloop : amortLoop (monthlyRate inp) (scheduledPayment inp) (safetyCap inp).toNat
        0 inp.principal 0 [] with e | ⟨revSched, ti⟩
    · rw [calculate_loan_of_loop_error inp (by push_neg; exact hvalid) e hloop] at h
      cases h
    · rw [calculate_loan_of_loop_ok inp (by push_neg; exact hvalid) revSched ti hloop] at h
      injection h with h
      refine ⟨revSched, ti, rfl, ?_, ?_, ?_, ?_, ?_, hvalid.1, hvalid.2.1, hvalid.2.2⟩ <;>
        rw [← h] <;> simp

theorem monthlyRate_nonneg (inp : LoanInput) (h : 0 ≤ inp.annual_rate) :
    0 ≤ monthlyRate inp := by
  unfold monthlyRate
  positivity

theorem basePayment_pos (inp : LoanInput) (hP : 0 < inp.principal)
    (hn : 0 < inp.term_months) (hrate : 0 ≤ inp.annual_rate) : 0 < basePayment inp := by
  have hnq : (0 : ℚ) < (inp.term_months : ℚ) := by exact_mod_cast hn
  unfold basePayment
  by_cases hr : monthlyRate inp = 0
  · rw [if_pos hr]
    positivity
  · rw [if_neg hr]
    have hr' : 0 < monthlyRate inp := lt_of_le_of_ne (monthlyRate_nonneg inp hrate)
      (Ne.symm hr)
    have hpow : 1 < (1 + monthlyRate inp) ^ inp.term_months.toNat := by
      apply one_lt_pow (by linarith)
      omega
    apply div_pos
    · apply mul_pos hP
      apply mul_pos hr'
      linarith
    · linarith

theorem scheduledPayment_pos (inp : LoanInput) (hP : 0 < inp.principal)
    (hn : 0 < inp.term_months) (hrate : 0 ≤ inp.annual_rate)
    (hextra : 0 ≤ inp.extra_payment) : 0 < scheduledPayment inp := by
  unfold scheduledPayment
  linarith [basePayment_pos inp hP hn hrate]

/-!  ## The claims  -/

/-- C6: `computeSchedule` fails with `InvalidInput` whenever `principal ≤ 0`,
or `term_months ≤ 0`, or `annual_rate < 0`; the failure is decided by the
check before the loop and the error result carries no schedule entries (the
`Except.error` constructor holds no `LoanResult`), and the operation is a
pure function, so it has no side effects. -/
theorem claim_C6_invalid_input (inp : LoanInput)
    (h : inp.principal ≤ 0 ∨ inp.term_months ≤ 0 ∨ inp.annual_rate < 0) :
    calculate_loan inp = .error .InvalidInput :=
  calculate_loan_invalid inp h

theorem claim_C6_invalid_input_witness :
    (((-1 : ℚ) ≤ 0 ∨ (12 : ℤ) ≤ 0 ∨ (5 : ℚ) < 0) ∧
      calculate_loan ⟨-1, 5, 12, 0⟩ = .error .InvalidInput) :=
  ⟨Or.inl (by norm_num),
    claim_C6_invalid_input ⟨-1, 5, 12, 0⟩ (Or.inl (by norm_num))⟩

/-- C4 (amended): on every successful run the loop executes at most
`safety_cap` months and at most 3601 months (not 3600: the absolute
fail-safe is checked after the entry for the month is appended, so month
3601 can be recorded), and the hard-stop region `payoff_months > 3600` is
reachable only when `term_months > 3000`. -/
theorem claim_C4_iteration_bound (inp : LoanInput) (res : LoanResult)
    (h : calculate_loan inp = .ok res) :
    (res.payoff_months : ℤ) ≤ safetyCap inp ∧ res.payoff_months ≤ 3601 ∧
      (3600 < res.payoff_months → 3000 < inp.term_months) := by
  obtain ⟨revSched, ti, hloop, hsched, hlen, _, _, _, hP, hn, hrate⟩ :=
    calculate_loan_ok_inv inp res h
  have hfuel := amortLoop_length_le_fuel _ _ _ _ _ _ _ _ _ hloop
  have hhard := amortLoop_length_le_hardstop _ _ _ _ _ _ _ _ _ (by norm_num) hloop
  simp only [List.length_nil] at hfuel hhard
  have hfuel' : revSched.length ≤ (safetyCap inp).toNat := by omega
  have hhard' : revSched.length ≤ 3601 := by
    push_cast at hhard
    omega
  have hcap : ((safetyCap inp).toNat : ℤ) = safetyCap inp := by
    have : 0 ≤ safetyCap inp := by
      unfold safetyCap
      omega
    omega
  refine ⟨?_, ?_, ?_⟩
  · rw [hlen, ← hcap]
    exact_mod_cast hfuel'
  · rw [hlen]
    exact hhard'
  · intro h3600
    rw [hlen] at h3600
    have h2 : (revSched.length : ℤ) ≤ safetyCap inp := by
      rw [← hcap]
      exact_mod_cast hfuel'
    unfold safetyCap at h2
    omega

theorem claim_C4_iteration_bound_witness :
    calculate_loan ⟨100, 0, 1, 0⟩ = .ok ⟨100, 100, 0, 1, 0, [⟨1, 100, 0, 100, 0⟩]⟩ ∧
      ((1 : ℤ) ≤ safetyCap ⟨100, 0, 1, 0⟩ ∧ (1 : ℕ) ≤ 3601 ∧
        (3600 < (1 : ℕ) → 3000 < (⟨100, 0, 1, 0⟩ : LoanInput).term_months)) := by
  constructor
  · with_unfolding_all rfl
  · exact claim_C4_iteration_bound ⟨100, 0, 1, 0⟩ ⟨100, 100, 0, 1, 0, [⟨1, 100, 0, 100, 0⟩]⟩
      (by with_unfolding_all rfl)

/-- A zero-rate loan whose term exceeds 3601 months: the run that exhibits
the absolute fail-safe. -/
def bigInput : LoanInput := ⟨3602, 0, 3602, 0⟩

theorem bigInput_monthlyRate : monthlyRate bigInput = 0 := by
  norm_num [monthlyRate, bigInput]

theorem bigInput_payment : scheduledPayment bigInput = 1 := by
  rw [scheduledPayment, basePayment, if_pos bigInput_monthlyRate]
  norm_num [bigInput]

theorem bigInput_cap : (safetyCap bigInput).toNat = 4202 := by
  rw [safetyCap]
  norm_num [bigInput]
  rfl

/-- The full behaviour of `calculate_loan` on `bigInput`: it succeeds, the
loop having been cut by the absolute fail-safe at month 3601 with a whole
3602-month term still scheduled, and the last entry records the remaining
balance 1.00 — not 0. -/
theorem bigRun_spec : ∃ res, calculate_loan bigInput = .ok res ∧
    res.payoff_months = 3601 ∧ res.schedule ≠ [] ∧
    res.schedule.getLast?.map ScheduleItem.balance = some 1 ∧
    (∀ x ∈ res.schedule, x.interest = 0) ∧
    res.monthly_payment = round2 (scheduledPayment bigInput) ∧
    0 < res.monthly_payment := by
  obtain ⟨s, e, hloop, hlen, hint, hhead, hbal⟩ :=
    amortLoop_r0_hardstop 1 (by norm_num) 4202 0 3602 (by norm_num) (by norm_num)
      (by norm_num) (by norm_num)
  have hbP : ((3602 : ℕ) : ℚ) * 1 = bigInput.principal := by
    norm_num [bigInput]
  rw [hbP] at hloop
  have hloop' : amortLoop (monthlyRate bigInput) (scheduledPayment bigInput)
      (safetyCap bigInput).toNat 0 bigInput.principal 0 [] = .ok (s, 0) := by
    rw [bigInput_monthlyRate, bigInput_payment, bigInput_cap]
    exact hloop
  have hvalid : ¬ (bigInput.principal ≤ 0 ∨ bigInput.term_months ≤ 0 ∨
      bigInput.annual_rate < 0) := by
    norm_num [bigInput]
  have hcalc := calculate_loan_of_loop_ok bigInput hvalid s 0 hloop'
  have hsne : s ≠ [] := by
    intro hnil
    rw [hnil] at hlen
    simp at hlen
  have hbal1 : e.balance = 1 := by
    rw [hbal]
    rw [show ((3602 : ℕ) : ℚ) - ((3601 - 0 : ℤ) : ℚ) = ((1 : ℤ) : ℚ) by push_cast; ring]
    rw [show (((1 : ℤ) : ℚ)) * 1 = ((1 : ℤ) : ℚ) by ring, round2_intCast]
    norm_num
  refine ⟨_, hcalc, ?_, ?_, ?_, ?_, ?_, ?_⟩
  · show s.reverse.length = 3601
    rw [List.length_reverse]
    omega
  · show s.reverse ≠ []
    simpa using hsne
  · show (s.reverse.getLast?.map ScheduleItem.balance) = some 1
    rw [List.getLast?_reverse, hhead]
    simp [hbal1]
  · intro x hx
    rw [List.mem_reverse] at hx
    exact hint x hx
  · rfl
  · show 0 < round2 (scheduledPayment bigInput)
    rw [bigInput_payment,
      show (1 : ℚ) = ((1 : ℤ) : ℚ) by norm_num, round2_intCast]
    norm_num

/-- C4, counterexample: `bigInput` is a valid input on which the loop runs
3601 iterations — the returned schedule has more than 3600 entries, so the
claimed bound of 3600 is off by one. -/
theorem claim_C4_cex :
    (0 < bigInput.principal ∧ 0 < bigInput.term_months ∧ 0 ≤ bigInput.annual_rate ∧
      0 ≤ bigInput.extra_payment) ∧
    (calculate_loan bigInput).toOption.map LoanResult.payoff_months = some 3601 ∧
    ¬ (3601 ≤ 3600) := by
  obtain ⟨res, hc, hp, _⟩ := bigRun_spec
  refine ⟨by norm_num [bigInput], ?_, by norm_num⟩
  rw [hc]
  show some res.payoff_months = some 3601
  rw [hp]

/-- C3 (amended): on a successful run from a valid input, no schedule entry
before the final one has a recorded balance at or below 0; the final entry's
balance is 0.00 whenever the loop stopped strictly before both iteration
caps (that is, whenever it stopped because the balance was depleted). -/
theorem claim_C3_balance_depletion (inp : LoanInput) (res : LoanResult)
    (hextra : 0 ≤ inp.extra_payment) (h : calculate_loan inp = .ok res) :
    (∀ e ∈ res.schedule.dropLast, 0 < e.balance) ∧
    (res.payoff_months < (safetyCap inp).toNat → res.payoff_months < 3601 →
      ∀ e, res.schedule.getLast? = some e → e.balance = 0) := by
  obtain ⟨revSched, ti, hloop, hsched, hlen, _, _, _, hP, hn, hrate⟩ :=
    calculate_loan_ok_inv inp res h
  have hp := scheduledPayment_pos inp hP hn hrate hextra
  have hr := monthlyRate_nonneg inp hrate
  obtain ⟨_, _, _, inv4, inv5⟩ :=
    amortLoop_run_invariants _ _ hp hr _ _ _ (le_of_lt hP) _ _ hloop
  constructor
  · intro e he
    rw [hsched, List.dropLast_reverse, List.mem_reverse] at he
    linarith [inv4 e he]
  · intro hcap hhard e hlast
    rw [hsched, List.getLast?_reverse] at hlast
    apply inv5 e hlast
    · rw [hlen] at hcap
      exact hcap
    · rw [hlen] at hhard
      push_cast
      omega

/-- C3, counterexample: on the valid input `bigInput` the run succeeds with a
non-empty schedule whose final entry records balance 1.00, not 0.00. -/
theorem claim_C3_cex :
    (0 < bigInput.principal ∧ 0 < bigInput.term_months ∧ 0 ≤ bigInput.annual_rate ∧
      0 ≤ bigInput.extra_payment) ∧
    (calculate_loan bigInput).toOption.map
      (fun res => res.schedule.getLast?.map ScheduleItem.balance) = some (some 1) ∧
    (1 : ℚ) ≠ 0 := by
  obtain ⟨res, hc, _, hne, hbal, _⟩ := bigRun_spec
  refine ⟨by norm_num [bigInput], ?_, by norm_num⟩
  rw [hc]
  show some (res.schedule.getLast?.map ScheduleItem.balance) = some (some 1)
  rw [hbal]

theorem claim_C3_balance_depletion_witness :
    ((0 : ℚ) ≤ 0) ∧
    calculate_loan ⟨100, 0, 2, 0⟩ =
      .ok ⟨50, 100, 0, 2, 0, [⟨1, 50, 0, 50, 50⟩, ⟨2, 50, 0, 50, 0⟩]⟩ ∧
    (0 : ℚ) < (⟨1, 50, 0, 50, 50⟩ : ScheduleItem).balance ∧
    (⟨2, 50, 0, 50, 0⟩ : ScheduleItem).balance = 0 := by
  have hW : calculate_loan ⟨100, 0, 2, 0⟩ =
      .ok ⟨50, 100, 0, 2, 0, [⟨1, 50, 0, 50, 50⟩, ⟨2, 50, 0, 50, 0⟩]⟩ := by
    with_unfolding_all rfl
  have hcl := claim_C3_balance_depletion ⟨100, 0, 2, 0⟩
    ⟨50, 100, 0, 2, 0, [⟨1, 50, 0, 50, 50⟩, ⟨2, 50, 0, 50, 0⟩]⟩ (le_refl 0) hW
  refine ⟨le_refl 0, hW, ?_, ?_⟩
  · apply hcl.1
    simp
  · apply hcl.2 (by decide) (by decide)
    rfl

/-- C10: there is a valid input (here a 3602-month zero-rate loan) on which
the loop exits through the iteration cap — the absolute fail-safe — while
the balance is still above the epsilon: no error is raised, the result is a
success whose `payoff_months` equals 3601 (the true maximal iteration count
of the loop, proved as a bound over all runs), every month's scheduled
payment strictly exceeds that month's interest, and the final entry records
a balance strictly greater than 0. -/
theorem claim_C10_cap_exit_success :
    ∃ inp res,
      (0 < inp.principal ∧ 0 < inp.term_months ∧ 0 ≤ inp.annual_rate ∧
        0 ≤ inp.extra_payment) ∧
      calculate_loan inp = .ok res ∧
      (∀ x ∈ res.schedule, x.interest < res.monthly_payment) ∧
      (∃ elast, res.schedule.getLast? = some elast ∧ 0 < elast.balance) ∧
      res.payoff_months = 3601 ∧
      (∀ inp' res', calculate_loan inp' = .ok res' → res'.payoff_months ≤ 3601) := by
  obtain ⟨res, hc, hpay, hne, hbal, hint, hmp, hmp0⟩ := bigRun_spec
  refine ⟨bigInput, res, by norm_num [bigInput], hc, ?_, ?_, hpay, ?_⟩
  · intro x hx
    rw [hint x hx]
    exact hmp0
  · rcases hlast : res.schedule.getLast? with _ | elast
    · rw [hlast] at hbal
      cases hbal
    · rw [hlast] at hbal
      simp only [Option.map] at hbal
      injection hbal with hbal
      exact ⟨elast, rfl, by rw [hbal]; norm_num⟩
  · intro inp' res' h'
    obtain ⟨revSched, ti, hloop, _, hlen, _, _, _, _, _, _⟩ :=
      calculate_loan_ok_inv inp' res' h'
    have hhard := amortLoop_length_le_hardstop _ _ _ _ _ _ _ _ _ (by norm_num) hloop
    simp only [List.length_nil] at hhard
    rw [hlen]
    push_cast at hhard
    omega

/-- C8: on any successful run from a valid input, every schedule entry's
recorded interest plus recorded principal equals its recorded payment to
within one cent. -/
theorem claim_C8_component_sum (inp : LoanInput) (res : LoanResult)
    (hextra : 0 ≤ inp.extra_payment) (h : calculate_loan inp = .ok res) :
    ∀ e ∈ res.schedule, |e.interest + e.principal - e.payment| ≤ 1/100 := by
  obtain ⟨revSched, ti, hloop, hsched, _, _, _, _, hP, hn, hrate⟩ :=
    calculate_loan_ok_inv inp res h
  have hp := scheduledPayment_pos inp hP hn hrate hextra
  have hr := monthlyRate_nonneg inp hrate
  obtain ⟨inv1, _, _, _, _⟩ :=
    amortLoop_run_invariants _ _ hp hr _ _ _ (le_of_lt hP) _ _ hloop
  intro e he
  rw [hsched, List.mem_reverse] at he
  obtain ⟨a, c, nb, hint, hpr, hpay, _⟩ := inv1 e he
  rw [hint, hpr, hpay]
  exact abs_round2_add_round2_sub_round2 a c

theorem claim_C8_component_sum_witness :
    ((0 : ℚ) ≤ 0) ∧
    calculate_loan ⟨100, 0, 1, 0⟩ = .ok ⟨100, 100, 0, 1, 0, [⟨1, 100, 0, 100, 0⟩]⟩ ∧
    |(⟨1, 100, 0, 100, 0⟩ : ScheduleItem).interest +
      (⟨1, 100, 0, 100, 0⟩ : ScheduleItem).principal -
      (⟨1, 100, 0, 100, 0⟩ : ScheduleItem).payment| ≤ 1/100 := by
  have hW : calculate_loan ⟨100, 0, 1, 0⟩ =
      .ok ⟨100, 100, 0, 1, 0, [⟨1, 100, 0, 100, 0⟩]⟩ := by
    with_unfolding_all rfl
  exact ⟨le_refl 0, hW,
    claim_C8_component_sum ⟨100, 0, 1, 0⟩ ⟨100, 100, 0, 1, 0, [⟨1, 100, 0, 100, 0⟩]⟩
      (le_refl 0) hW ⟨1, 100, 0, 100, 0⟩ (by simp)⟩

/-- C9: on any successful run from a valid input, `total_payment` is the
2-decimal rounding of the sum of the already-rounded per-entry `payment`
fields, and each per-entry monetary field is a fixed point of `round2` —
it was rounded exactly once, when it was recorded. -/
theorem claim_C9_rounding_policy (inp : LoanInput) (res : LoanResult)
    (hextra : 0 ≤ inp.extra_payment) (h : calculate_loan inp = .ok res) :
    res.total_payment = round2 ((res.schedule.map ScheduleItem.payment).sum) ∧
    ∀ e ∈ res.schedule, round2 e.payment = e.payment ∧ round2 e.interest = e.interest ∧
      round2 e.principal = e.principal ∧ round2 e.balance = e.balance := by
  obtain ⟨revSched, ti, hloop, hsched, _, _, _, htp, hP, hn, hrate⟩ :=
    calculate_loan_ok_inv inp res h
  have hp := scheduledPayment_pos inp hP hn hrate hextra
  have hr := monthlyRate_nonneg inp hrate
  obtain ⟨inv1, _, _, _, _⟩ :=
    amortLoop_run_invariants _ _ hp hr _ _ _ (le_of_lt hP) _ _ hloop
  constructor
  · rw [htp, hsched]
  · intro e he
    rw [hsched, List.mem_reverse] at he
    obtain ⟨a, c, nb, hint, hpr, hpay, hbal⟩ := inv1 e he
    exact ⟨by rw [hpay, round2_round2], by rw [hint, round2_round2],
      by rw [hpr, round2_round2], by rw [hbal, round2_round2]⟩

theorem claim_C9_rounding_policy_witness :
    ((0 : ℚ) ≤ 0) ∧
    calculate_loan ⟨100, 0, 1, 0⟩ = .ok ⟨100, 100, 0, 1, 0, [⟨1, 100, 0, 100, 0⟩]⟩ ∧
    (⟨100, 100, 0, 1, 0, [⟨1, 100, 0, 100, 0⟩]⟩ : LoanResult).total_payment =
      round2 (((⟨100, 100, 0, 1, 0, [⟨1, 100, 0, 100, 0⟩]⟩ : LoanResult).schedule.map
        ScheduleItem.payment).sum) := by
  have hW : calculate_loan ⟨100, 0, 1, 0⟩ =
      .ok ⟨100, 100, 0, 1, 0, [⟨1, 100, 0, 100, 0⟩]⟩ := by
    with_unfolding_all rfl
  exact ⟨le_refl 0, hW,
    (claim_C9_rounding_policy ⟨100, 0, 1, 0⟩ ⟨100, 100, 0, 1, 0, [⟨1, 100, 0, 100, 0⟩]⟩
      (le_refl 0) hW).1⟩

/-- C7: in any loop iteration that records an entry, if the unclamped
principal component `payment - balance * r` exceeds the current balance then
the principal is clamped to the balance and the recorded actual payment is
the rounding of `interestComponent + principalComponent` (which is strictly
below the scheduled payment, so the recorded payment is at most the recorded
scheduled payment); in every other recording iteration the recorded actual
payment is the rounding of the constant scheduled payment. -/
theorem claim_C7_final_month_clamp (r p b : ℚ) (m : ℤ) (item : ScheduleItem)
    (nb ic : ℚ) (h : loopBody r p b m = .ok (item, nb, ic)) :
    (b < p - b * r →
      item.principal = round2 b ∧ item.payment = round2 (b * r + b) ∧
      item.payment ≤ round2 p) ∧
    (¬ b < p - b * r → item.payment = round2 p) := by
  by_cases hg : p - b * r ≤ 0 ∧ 0 < r
  · rw [loopBody_guard _ _ _ _ hg] at h
    cases h
  constructor
  · intro hc
    rw [loopBody_clamp _ _ _ _ hg hc] at h
    injection h with h
    injection h with hitem h
    rw [← hitem]
    refine ⟨rfl, rfl, round2_mono (by linarith)⟩
  · intro hc
    rw [loopBody_noclamp _ _ _ _ hg hc] at h
    injection h with h
    injection h with hitem h
    rw [← hitem]

theorem claim_C7_final_month_clamp_witness :
    loopBody 0 2 1 1 = .ok (⟨1, 1, 0, 1, 0⟩, 0, 0) ∧
    ((1 : ℚ) < 2 - 1 * 0) ∧
    (⟨1, 1, 0, 1, 0⟩ : ScheduleItem).principal = round2 1 ∧
    (⟨1, 1, 0, 1, 0⟩ : ScheduleItem).payment = round2 (1 * 0 + 1) ∧
    (⟨1, 1, 0, 1, 0⟩ : ScheduleItem).payment ≤ round2 2 := by
  have hlb : loopBody 0 2 1 1 = .ok (⟨1, 1, 0, 1, 0⟩, 0, 0) := by
    with_unfolding_all rfl
  have h := (claim_C7_final_month_clamp 0 2 1 1 ⟨1, 1, 0, 1, 0⟩ 0 0 hlb).1 (by norm_num)
  exact ⟨hlb, by norm_num, h.1, h.2.1, h.2.2⟩

/-- C1: for a valid input, `calculate_loan` fails with `NonAmortizingPayment`
exactly when the monthly rate is positive and some reachable month — the
first one, by the minimality clause — has a principal component
`payment - balance * r ≤ 0`; and with a zero monthly rate the guard never
fires.  The error constructor carries no schedule, so no partial schedule
escapes. -/
theorem claim_C1_nonamortizing_guard (inp : LoanInput) (hP : 0 < inp.principal)
    (hn : 0 < inp.term_months) (hrate : 0 ≤ inp.annual_rate) :
    (calculate_loan inp = .error .NonAmortizingPayment ↔
      0 < monthlyRate inp ∧ ∃ k : ℕ, k < (safetyCap inp).toNat ∧ 0 + (k : ℤ) ≤ 3600 ∧
        (∀ j ≤ k, 1/200 <
          balSeq (monthlyRate inp) (scheduledPayment inp) inp.principal j) ∧
        scheduledPayment inp -
          balSeq (monthlyRate inp) (scheduledPayment inp) inp.principal k *
            monthlyRate inp ≤ 0 ∧
        (∀ j < k, 0 < scheduledPayment inp -
          balSeq (monthlyRate inp) (scheduledPayment inp) inp.principal j *
            monthlyRate inp)) ∧
    (monthlyRate inp = 0 → calculate_loan inp ≠ .error .NonAmortizingPayment) := by
  have hvalid : ¬ (inp.principal ≤ 0 ∨ inp.term_months ≤ 0 ∨ inp.annual_rate < 0) := by
    push_neg
    exact ⟨hP, hn, hrate⟩
  have key : calculate_loan inp = .error .NonAmortizingPayment ↔
      amortLoop (monthlyRate inp) (scheduledPayment inp) (safetyCap inp).toNat
        0 inp.principal 0 [] = .error .NonAmortizingPayment := by
    rcases hloop : amortLoop (monthlyRate inp) (scheduledPayment inp)
        (safetyCap inp).toNat 0 inp.principal 0 [] with e | ⟨s, t⟩
    · rw [calculate_loan_of_loop_error inp hvalid e hloop]
      simp only [Except.error.injEq]
    · rw [calculate_loan_of_loop_ok inp hvalid s t hloop]
      constructor <;> intro hx <;> cases hx
  constructor
  · rw [key]
    exact amortLoop_error_iff (monthlyRate inp) (scheduledPayment inp)
      ((safetyCap inp).toNat) 0 inp.principal 0 [] (by norm_num)
  · intro h0 hbad
    rw [key, amortLoop_error_iff (monthlyRate inp) (scheduledPayment inp)
      ((safetyCap inp).toNat) 0 inp.principal 0 [] (by norm_num)] at hbad
    rw [h0] at hbad
    exact absurd hbad.1 (lt_irrefl 0)

theorem claim_C1_nonamortizing_guard_witness :
    (0 < (100 : ℚ)) ∧ (0 < (12 : ℤ)) ∧ (0 ≤ (0 : ℚ)) ∧
    (monthlyRate ⟨100, 0, 12, 0⟩ = 0 →
      calculate_loan ⟨100, 0, 12, 0⟩ ≠ .error .NonAmortizingPayment) :=
  ⟨by norm_num, by norm_num, le_refl 0,
    (claim_C1_nonamortizing_guard ⟨100, 0, 12, 0⟩ (by norm_num) (by norm_num)
      (le_refl 0)).2⟩

/-- C2, counterexample: the valid zero-rate input with `principal = 0.006`,
`term_months = 2` pays off in 1 month, not 2 (the epsilon exit absorbs the
sub-cent tail), and its recorded `monthly_payment` is `round2(0.003) = 0`,
not `principal / term_months`. -/
theorem claim_C2_cex :
    (0 < (⟨3/500, 0, 2, 0⟩ : LoanInput).principal ∧
      0 < (⟨3/500, 0, 2, 0⟩ : LoanInput).term_months ∧
      (⟨3/500, 0, 2, 0⟩ : LoanInput).annual_rate = 0 ∧
      (⟨3/500, 0, 2, 0⟩ : LoanInput).extra_payment = 0) ∧
    calculate_loan ⟨3/500, 0, 2, 0⟩ = .ok ⟨0, 0, 0, 1, 0, [⟨1, 0, 0, 0, 0⟩]⟩ ∧
    ((⟨0, 0, 0, 1, 0, [⟨1, 0, 0, 0, 0⟩]⟩ : LoanResult).payoff_months : ℤ) ≠
      (⟨3/500, 0, 2, 0⟩ : LoanInput).term_months ∧
    (⟨0, 0, 0, 1, 0, [⟨1, 0, 0, 0, 0⟩]⟩ : LoanResult).monthly_payment ≠
      (⟨3/500, 0, 2, 0⟩ : LoanInput).principal /
        ((⟨3/500, 0, 2, 0⟩ : LoanInput).term_months : ℚ) := by
  refine ⟨⟨by norm_num, by norm_num, rfl, rfl⟩, by with_unfolding_all rfl, by norm_num,
    by norm_num⟩

/-- C2 (amended): for a zero-rate input with no extra payment, the run
succeeds with `payoff_months` exactly `term_months` and `monthly_payment`
equal to `round2(principal / term_months)` — provided the straight-line
payment `principal / term_months` itself exceeds the 0.005 exit epsilon and
the term does not reach the absolute fail-safe (`term_months ≤ 3601`); the
zero-rate run accrues no interest. -/
theorem claim_C2_zero_rate (inp : LoanInput) (hrate : inp.annual_rate = 0)
    (hextra : inp.extra_payment = 0) (hP : 0 < inp.principal)
    (hn : 0 < inp.term_months) (hn2 : inp.term_months ≤ 3601)
    (hPn : 1/200 < inp.principal / (inp.term_months : ℚ)) :
    ∃ res, calculate_loan inp = .ok res ∧
      (res.payoff_months : ℤ) = inp.term_months ∧
      res.monthly_payment = round2 (inp.principal / (inp.term_months : ℚ)) ∧
      res.total_interest = 0 := by
  have hr0 : monthlyRate inp = 0 := by
    unfold monthlyRate
    rw [hrate]
    norm_num
  have hsp : scheduledPayment inp = inp.principal / (inp.term_months : ℚ) := by
    unfold scheduledPayment basePayment
    rw [if_pos hr0, hextra, add_zero]
  have hmn : ((inp.term_months.toNat : ℤ)) = inp.term_months :=
    Int.toNat_of_nonneg (by omega)
  have hb : ((inp.term_months.toNat : ℕ) : ℚ) * (inp.principal / (inp.term_months : ℚ)) =
      inp.principal := by
    have hnq : ((inp.term_months : ℤ) : ℚ) ≠ 0 := by
      exact_mod_cast (by omega : inp.term_months ≠ 0)
    have hcast : ((inp.term_months.toNat : ℕ) : ℚ) = ((inp.term_months : ℤ) : ℚ) := by
      exact_mod_cast hmn
    rw [hcast]
    field_simp
  obtain ⟨s, hloop, hlen, _⟩ := amortLoop_r0_depletes
    (inp.principal / (inp.term_months : ℚ)) hPn inp.term_months.toNat
    ((safetyCap inp).toNat) 0
    (by
      apply Int.toNat_le_toNat
      unfold safetyCap
      omega)
    (le_refl 0)
    (by omega)
  rw [hb] at hloop
  have hloop' : amortLoop (monthlyRate inp) (scheduledPayment inp)
      (safetyCap inp).toNat 0 inp.principal 0 [] = .ok (s, 0) := by
    rw [hr0, hsp]
    exact hloop
  have hvalid : ¬ (inp.principal ≤ 0 ∨ inp.term_months ≤ 0 ∨ inp.annual_rate < 0) := by
    push_neg
    exact ⟨hP, hn, by rw [hrate]⟩
  refine ⟨_, calculate_loan_of_loop_ok inp hvalid s 0 hloop', ?_, ?_, round2_zero⟩
  · show ((s.reverse.length : ℕ) : ℤ) = inp.term_months
    rw [List.length_reverse, hlen]
    exact hmn
  · show round2 (scheduledPayment inp) = round2 (inp.principal / (inp.term_months : ℚ))
    rw [hsp]

theorem claim_C2_zero_rate_witness :
    ((⟨100, 0, 2, 0⟩ : LoanInput).annual_rate = 0 ∧
      (⟨100, 0, 2, 0⟩ : LoanInput).extra_payment = 0 ∧
      0 < (⟨100, 0, 2, 0⟩ : LoanInput).principal ∧
      0 < (⟨100, 0, 2, 0⟩ : LoanInput).term_months ∧
      (⟨100, 0, 2, 0⟩ : LoanInput).term_months ≤ 3601 ∧
      1/200 < (⟨100, 0, 2, 0⟩ : LoanInput).principal /
        ((⟨100, 0, 2, 0⟩ : LoanInput).term_months : ℚ)) ∧
    ∃ res, calculate_loan ⟨100, 0, 2, 0⟩ = .ok res ∧
      (res.payoff_months : ℤ) = (⟨100, 0, 2, 0⟩ : LoanInput).term_months ∧
      res.monthly_payment = round2 ((⟨100, 0, 2, 0⟩ : LoanInput).principal /
        ((⟨100, 0, 2, 0⟩ : LoanInput).term_months : ℚ)) ∧
      res.total_interest = 0 :=
  ⟨⟨rfl, rfl, by norm_num, by norm_num, by norm_num, by norm_num⟩,
    claim_C2_zero_rate ⟨100, 0, 2, 0⟩ rfl rfl (by norm_num) (by norm_num)
      (by norm_num) (by norm_num)⟩

/-- C5, counterexample: two valid inputs identical except for a strictly
larger `extra_payment` (0 versus 0.0047) at `annual_rate = 25.78 > 0`:
payoff_months does not strictly decrease (both are 2), total_interest does
not strictly decrease (both are 7.91), and the larger case's total_payment
(252.59) strictly exceeds the zero-extra case's total interest plus
principal (7.91 + 244.67 = 252.58). -/
theorem claim_C5_cex :
    calculate_loan ⟨24467/100, 1289/50, 2, 0⟩ =
      .ok ⟨12629/100, 12629/50, 791/100, 2, 1289/50,
        [⟨1, 12629/100, 263/50, 12103/100, 3091/25⟩,
         ⟨2, 12629/100, 133/50, 3091/25, 0⟩]⟩ ∧
    calculate_loan ⟨24467/100, 1289/50, 2, 47/10000⟩ =
      .ok ⟨1263/10, 25259/100, 791/100, 2, 1289/50,
        [⟨1, 1263/10, 263/50, 3026/25, 12363/100⟩,
         ⟨2, 12629/100, 133/50, 12363/100, 0⟩]⟩ ∧
    (0 : ℚ) < 1289/50 ∧ (0 : ℚ) < 47/10000 - 0 ∧
    ¬ ((2 : ℕ) < 2) ∧ ¬ ((791/100 : ℚ) < 791/100) ∧
    (791/100 : ℚ) + 24467/100 < 25259/100 := by
  refine ⟨by with_unfolding_all rfl, by with_unfolding_all rfl, by norm_num, by norm_num,
    by norm_num, by norm_num, by norm_num⟩

/-- C5 (amended): for inputs identical except for the extra payment, with a
positive annual rate and the zero-extra variant succeeding, any two extra
payments with the second strictly larger both succeed, and the larger one
yields a payoff_months and total_interest that never increase (strict
decrease fails: ties occur), while its total_payment can exceed the
zero-extra case's total interest plus principal only by the accumulated
rounding slack, at most half a cent per entry plus one cent. -/
theorem claim_C5_extra_payment_monotonic (inp0 inp1 inp2 : LoanInput)
    (res0 : LoanResult)
    (hrate : 0 < inp0.annual_rate) (h0extra : inp0.extra_payment = 0)
    (h1f : inp1.principal = inp0.principal ∧ inp1.annual_rate = inp0.annual_rate ∧
      inp1.term_months = inp0.term_months)
    (h2f : inp2.principal = inp0.principal ∧ inp2.annual_rate = inp0.annual_rate ∧
      inp2.term_months = inp0.term_months)
    (h1e : 0 ≤ inp1.extra_payment) (h12 : inp1.extra_payment < inp2.extra_payment)
    (h0 : calculate_loan inp0 = .ok res0) :
    ∃ res1 res2, calculate_loan inp1 = .ok res1 ∧ calculate_loan inp2 = .ok res2 ∧
      res2.payoff_months ≤ res1.payoff_months ∧
      res2.total_interest ≤ res1.total_interest ∧
      res2.total_payment ≤ res0.total_interest + inp0.principal +
        ((res2.payoff_months : ℚ) + 2) * (1/200) := by
  obtain ⟨s0, t0, hloop0, _, _, hti0, _, _, hP, hn, hrate'⟩ :=
    calculate_loan_ok_inv inp0 res0 h0
  have hr := monthlyRate_nonneg inp0 hrate'
  have hbase := basePayment_pos inp0 hP hn hrate'
  have hsp0 : scheduledPayment inp0 = basePayment inp0 := by
    unfold scheduledPayment
    rw [h0extra, add_zero]
  have hmr1 : monthlyRate inp1 = monthlyRate inp0 := by
    unfold monthlyRate
    rw [h1f.2.1]
  have hmr2 : monthlyRate inp2 = monthlyRate inp0 := by
    unfold monthlyRate
    rw [h2f.2.1]
  have hbp1 : basePayment inp1 = basePayment inp0 := by
    unfold basePayment
    rw [hmr1, h1f.1, h1f.2.2]
  have hbp2 : basePayment inp2 = basePayment inp0 := by
    unfold basePayment
    rw [hmr2, h2f.1, h2f.2.2]
  have hsp1 : scheduledPayment inp1 = basePayment inp0 + inp1.extra_payment := by
    unfold scheduledPayment
    rw [hbp1]
  have hsp2 : scheduledPayment inp2 = basePayment inp0 + inp2.extra_payment := by
    unfold scheduledPayment
    rw [hbp2]
  have hcap1 : safetyCap inp1 = safetyCap inp0 := by
    unfold safetyCap
    rw [h1f.2.2]
  have hcap2 : safetyCap inp2 = safetyCap inp0 := by
    unfold safetyCap
    rw [h2f.2.2]
  rw [hsp0] at hloop0
  obtain ⟨s1, t1, hloop1, hlen1, ht1z, ht1le⟩ :=
    amortLoop_le_of_le (monthlyRate inp0) (basePayment inp0)
      (basePayment inp0 + inp1.extra_payment) hr hbase (by linarith)
      ((safetyCap inp0).toNat) 0 inp0.principal inp0.principal (le_of_lt hP)
      (le_refl _) s0 t0 hloop0
  obtain ⟨s2, t2, hloop2, hlen2, ht2z, ht2le⟩ :=
    amortLoop_le_of_le (monthlyRate inp0) (basePayment inp0 + inp1.extra_payment)
      (basePayment inp0 + inp2.extra_payment) hr (by linarith) (by linarith)
      ((safetyCap inp0).toNat) 0 inp0.principal inp0.principal (le_of_lt hP)
      (le_refl _) s1 t1 hloop1
  have hvalid1 : ¬ (inp1.principal ≤ 0 ∨ inp1.term_months ≤ 0 ∨
      inp1.annual_rate < 0) := by
    push_neg
    rw [h1f.1, h1f.2.1, h1f.2.2]
    exact ⟨hP, hn, hrate'⟩
  have hvalid2 : ¬ (inp2.principal ≤ 0 ∨ inp2.term_months ≤ 0 ∨
      inp2.annual_rate < 0) := by
    push_neg
    rw [h2f.1, h2f.2.1, h2f.2.2]
    exact ⟨hP, hn, hrate'⟩
  have hloop1' : amortLoop (monthlyRate inp1) (scheduledPayment inp1)
      (safetyCap inp1).toNat 0 inp1.principal 0 [] = .ok (s1, t1) := by
    rw [hmr1, hsp1, hcap1, h1f.1]
    exact hloop1
  have hloop2' : amortLoop (monthlyRate inp2) (scheduledPayment inp2)
      (safetyCap inp2).toNat 0 inp2.principal 0 [] = .ok (s2, t2) := by
    rw [hmr2, hsp2, hcap2, h2f.1]
    exact hloop2
  obtain ⟨_, _, hsum2, _, _⟩ := amortLoop_run_invariants (monthlyRate inp0)
    (basePayment inp0 + inp2.extra_payment) (by linarith) hr
    ((safetyCap inp0).toNat) 0 inp0.principal (le_of_lt hP) s2 t2 hloop2
  refine ⟨_, _, calculate_loan_of_loop_ok inp1 hvalid1 s1 t1 hloop1',
    calculate_loan_of_loop_ok inp2 hvalid2 s2 t2 hloop2', ?_, ?_, ?_⟩
  · show s2.reverse.length ≤ s1.reverse.length
    rw [List.length_reverse, List.length_reverse]
    exact hlen2
  · show round2 t2 ≤ round2 t1
    exact round2_mono ht2le
  · show round2 ((s2.reverse.map ScheduleItem.payment).sum) ≤
      res0.total_interest + inp0.principal + ((s2.reverse.length : ℚ) + 2) * (1/200)
    have hsumrev : (s2.reverse.map ScheduleItem.payment).sum =
        (s2.map ScheduleItem.payment).sum := by
      rw [List.map_reverse, List.sum_reverse]
    have h1 := round2_le_add ((s2.map ScheduleItem.payment).sum)
    have h2 := le_round2_add t0
    rw [← hti0] at h2
    rw [hsumrev, List.length_reverse]
    linarith

theorem claim_C5_extra_payment_monotonic_witness :
    ((0 : ℚ) < (⟨100, 12, 1, 0⟩ : LoanInput).annual_rate ∧
      (⟨100, 12, 1, 0⟩ : LoanInput).extra_payment = 0 ∧
      (⟨100, 12, 1, 0⟩ : LoanInput).extra_payment <
        (⟨100, 12, 1, 5⟩ : LoanInput).extra_payment ∧
      calculate_loan ⟨100, 12, 1, 0⟩ =
        .ok ⟨101, 101, 1, 1, 12, [⟨1, 101, 1, 100, 0⟩]⟩) ∧
    ∃ res1 res2, calculate_loan ⟨100, 12, 1, 0⟩ = .ok res1 ∧
      calculate_loan ⟨100, 12, 1, 5⟩ = .ok res2 ∧
      res2.payoff_months ≤ res1.payoff_months ∧
      res2.total_interest ≤ res1.total_interest ∧
      res2.total_payment ≤
        (⟨101, 101, 1, 1, 12, [⟨1, 101, 1, 100, 0⟩]⟩ : LoanResult).total_interest +
        (⟨100, 12, 1, 0⟩ : LoanInput).principal +
        ((res2.payoff_months : ℚ) + 2) * (1/200) := by
  have h0 : calculate_loan ⟨100, 12, 1, 0⟩ =
      .ok ⟨101, 101, 1, 1, 12, [⟨1, 101, 1, 100, 0⟩]⟩ := by
    with_unfolding_all rfl
  exact ⟨⟨by norm_num, rfl, by norm_num, h0⟩,
    claim_C5_extra_payment_monotonic ⟨100, 12, 1, 0⟩ ⟨100, 12, 1, 0⟩ ⟨100, 12, 1, 5⟩
      ⟨101, 101, 1, 1, 12, [⟨1, 101, 1, 100, 0⟩]⟩ (by norm_num) rfl ⟨rfl, rfl, rfl⟩
      ⟨rfl, rfl, rfl⟩ (le_refl 0) (by norm_num) h0⟩
